import Mathlib

/-!
Verification development for the ipyniivue widget glue code.

The definitions below are a shallow embedding of the repository's
mesh-reconciliation module (the latest revision of `mesh.ts`, embedded in
`src/examples/widgets.ipynb` lines 551-824), of the event bridge and
lifecycle entry points in `src/js/widget.ts`, and of the backend data model
declared in `src/js/types.ts`.

External collaborators (the Niivue renderer's GPU pipeline, its file
parsers, and the anywidget transport) are modelled as parameters: the mesh
payload parser appears as an external id generator plus a constructor that
builds a fresh layerless mesh, the layer payload parser as an arbitrary
function that may fail (returning none, the JS falsy result), and GPU
calls (updateMesh/updateGLVolume/attachToCanvas) as no-ops, since no claim
depends on their effect.  JavaScript numbers that are only carried through
(opacities, calibration bounds) are modelled as rationals; JS undefined
inside the renderer's layer arrays is modelled with Option.
-/

namespace Ipyniivue

/-- A backend file payload: the `File` interface of `src/js/types.ts`
(`name`, `data : DataView`); the bytes are a list of naturals. -/
structure NvFile where
  name : String
  data : List Nat
  deriving DecidableEq, Repr

/-- Backend mesh-layer descriptor: the `MeshLayerModel` of `src/js/types.ts`.
The property values may be absent at runtime (the code applies defaults
with the JS nullish operator), so every property field is an Option. -/
structure MeshLayerModel where
  path : NvFile
  opacity : Option ℚ
  colormap : Option String
  colormap_negative : Option String
  use_negative_cmap : Option Bool
  cal_min : Option ℚ
  cal_max : Option ℚ
  frame4D : Option ℚ
  deriving DecidableEq, Repr

/-- Backend mesh descriptor: the `MeshModel` of `src/js/types.ts`, plus an
`unsaved` flag modelling the anywidget staged-mutation state: `set` stages
a value (unsaved := true) and `save_changes` commits it (unsaved := false). -/
structure MeshModel where
  path : NvFile
  id : String
  name : String
  rgba255 : List Nat
  opacity : ℚ
  layers : List String
  visible : Bool
  colormap_invert : Bool
  unsaved : Bool
  deriving DecidableEq, Repr

/-- A live renderer-side mesh layer object (produced by the external
`NVMeshLoaders.readLayer`); its contents are opaque to the glue code except
for the fields the property listeners write, which we carry verbatim. -/
structure NVMeshLayer where
  id : String
  opacity : ℚ
  colormap : String
  colormapNegative : String
  useNegativeCmap : Bool
  cal_min : Option ℚ
  cal_max : Option ℚ
  frame4D : ℚ
  deriving DecidableEq, Repr

/-- A live renderer-side mesh (niivue's `NVMesh`).  The `layers` array can
hold JS undefined (the code pushes the raw result of `readLayer` before the
falsy check), hence `List (Option NVMeshLayer)`. -/
structure NVMesh where
  id : String
  name : String
  rgba255 : List Nat
  opacity : ℚ
  visible : Bool
  layers : List (Option NVMeshLayer)
  deriving DecidableEq, Repr

/-- A change-listener token: the model it is attached to (its reference id)
together with the property name, mirroring `model.on("change:" + prop, f)`. -/
abbrev Listener := String × String

/-- Observable effects of a reconciliation pass.  `decodeMesh` records a
call of the external `NVMesh.readMesh` parser (construction of a new
renderer entity), `decodeLayer` a call of `NVMeshLoaders.readLayer`,
`addMesh`/`removeMesh` the renderer collection operations, `disposeRun` a
Disposer invocation that ran the recorded teardown, and `save` a
`save_changes` commit on a backend descriptor. -/
inductive Ev where
  | decodeMesh (fileName : String)
  | decodeLayer (fileName : String)
  | addMesh (id : String)
  | removeMesh (id : String)
  | disposeRun (id : String) (teardown : List Listener)
  | save (refId : String)
  deriving DecidableEq, Repr

/-- Insertion-ordered string-keyed map, modelling a JS `Map`: an
association list where `omapSet` overwrites in place (keeping the original
position, like `Map.prototype.set`) or appends a fresh key at the end. -/
def omapGet (m : List (String × α)) (k : String) : Option α :=
  match m with
  | [] => none
  | (k', v) :: rest => if k' = k then some v else omapGet rest k

/-- Whether a key is present, modelling `Map.prototype.has`. -/
def omapHas (m : List (String × α)) (k : String) : Bool :=
  match m with
  | [] => false
  | (k', _) :: rest => if k' = k then true else omapHas rest k

/-- Set a key, modelling `Map.prototype.set`: overwrite in place if the key
exists, else append at the end (JS Maps iterate in insertion order). -/
def omapSet (m : List (String × α)) (k : String) (v : α) : List (String × α) :=
  match m with
  | [] => [(k, v)]
  | (k', v') :: rest =>
      if k' = k then (k, v) :: rest else (k', v') :: omapSet rest k v

/-- Delete a key, modelling `Map.prototype.delete`. -/
def omapDel (m : List (String × α)) (k : String) : List (String × α) :=
  match m with
  | [] => []
  | (k', v') :: rest =>
      if k' = k then rest else (k', v') :: omapDel rest k

/-- The synthetic placeholder key used by the reconciler for entities whose
id is still empty: the template string from `mesh.ts`. -/
def tempId (n : Nat) : String := "__temp_id__" ++ Nat.repr n

/-- The JS expression `id || tempId(index)`: the empty string is falsy. -/
def jsKey (id : String) (idx : Nat) : String :=
  if id = "" then tempId idx else id

/-- Key every element of a list by `jsKey` of its id, carrying the element
index, mirroring the two `forEach((x, index) => map.set(...))` loops. -/
def keyedEntries (f : α → String) : List α → Nat → List (String × α)
  | [], _ => []
  | a :: rest, i => (jsKey (f a) i, a) :: keyedEntries f rest (i + 1)

/-- Replay a keyed entry list through `Map.set`, which dedups on keys the
way a JS Map does (first position wins, last value wins). -/
def buildKeyed (l : List (String × α)) : List (String × α) :=
  l.foldl (fun m p => omapSet m p.1 p.2) []

/-- Modelled from the spec: the Disposer of the missing `lib.ts` (spec
section 4.1): `register` stores one cleanup per resource id, overwriting
any prior action for that id without invoking it. -/
def Disposer.register (d : List (String × List Listener)) (id : String)
    (cleanup : List Listener) : List (String × List Listener) :=
  omapSet d id cleanup

/-- Modelled from the spec: `gather_models` of the missing `lib.ts` (spec
section 4.2): resolve an ordered list of cross-reference ids against the
model registry, preserving order and failing the whole batch if any single
resolution fails. -/
def gather_models (reg : List (String × α)) :
    List String → Option (List (String × α))
  | [] => some []
  | r :: rest =>
      match omapGet reg r with
      | none => none
      | some m =>
          match gather_models reg rest with
          | none => none
          | some ms => some ((r, m) :: ms)

/-- The external world as the glue code sees it: the uuid stream consumed
by niivue's mesh constructor, the external layer-payload parser, and the
registry of layer child-models reachable through the widget manager. -/
structure Env where
  freshId : Nat → String
  readLayer : NvFile → ℚ → String → String → Bool → Option ℚ → Option ℚ → ℚ →
    Option NVMeshLayer
  layerModels : List (String × MeshLayerModel)

/-- Mutable state threaded through a reconciliation pass: the backend model
registry (mesh descriptors are mutated in place by `create_mesh`), the
ordered `_meshes` reference list, the renderer's live mesh array, the
attached change listeners, the Disposer registry, and the position in the
external uuid stream. -/
structure RState where
  meshModels : List (String × MeshModel)
  meshesList : List String
  nvMeshes : List NVMesh
  listeners : List Listener
  disposer : List (String × List Listener)
  fresh : Nat
  deriving DecidableEq, Repr

/-- The sentinel marking a descriptor whose renderer entity already exists. -/
def preloaded : String := "<preloaded>"

/-- JS `Array.prototype.findIndex`, with none for the -1 result. -/
def jsFindIndex (p : α → Bool) : List α → Option Nat
  | [] => none
  | a :: rest => if p a then some 0 else (jsFindIndex p rest).map (· + 1)

/-- The external `NVMesh.readMesh` call: parses the payload into a fresh
layerless mesh whose id comes from the external uuid stream and whose name
the reader derives from the file name. -/
def mkMesh (id : String) (m : MeshModel) : NVMesh :=
  { id := id
    name := m.path.name
    rgba255 := m.rgba255
    opacity := m.opacity
    visible := m.visible
    layers := [] }

/-- The seven per-layer listener tokens attached by
`setup_layer_property_listeners` in `mesh.ts`, in source order. -/
def layerTokens (lref : String) : List Listener :=
  [(lref, "opacity"), (lref, "colormap"), (lref, "colormap_negative"),
   (lref, "use_negative_cmap"), (lref, "cal_min"), (lref, "cal_max"),
   (lref, "frame4D")]

/-- The four per-mesh listener tokens attached by
`setup_mesh_property_listeners` in `mesh.ts`, in source order. -/
def meshTokens (refId : String) : List Listener :=
  [(refId, "opacity"), (refId, "rgba255"), (refId, "visible"),
   (refId, "colormap_invert")]

/-- The external `NVMeshLoaders.readLayer` call of the layer loop with the
source's nullish defaults applied (`?? 0.5`, `?? "warm"`, `?? "winter"`,
`?? false`, `?? null`, `?? null`, `?? 0`). -/
def readLayerOf (env : Env) (lm : MeshLayerModel) : Option NVMeshLayer :=
  env.readLayer lm.path (lm.opacity.getD (1 / 2)) (lm.colormap.getD "warm")
    (lm.colormap_negative.getD "winter") (lm.use_negative_cmap.getD false)
    lm.cal_min lm.cal_max (lm.frame4D.getD 0)

/-- The layer loop of `create_mesh` (`layerModels.forEach`): for a layer
whose path is the preloaded sentinel, adopt `mesh.layers[layerIndex]` (JS
indexing, undefined out of bounds); otherwise decode it with the external
reader, applying the source's nullish defaults, and push the raw result —
the falsy guard `if (!layer) return` then skips listener attachment for a
failed layer but keeps processing the siblings.  Returns the updated mesh,
the attached listener tokens, the accumulated cleanup, and the events. -/
def processLayers (env : Env) :
    NVMesh → List (String × MeshLayerModel) → Nat →
      NVMesh × List Listener × List Listener × List Ev
  | mesh, [], _ => (mesh, [], [], [])
  | mesh, (lref, lm) :: rest, i =>
      if lm.path.name = preloaded then
        match (mesh.layers.get? i).join with
        | none => processLayers env mesh rest (i + 1)
        | some _ =>
            let (mesh', t, c, e) := processLayers env mesh rest (i + 1)
            (mesh', layerTokens lref ++ t, layerTokens lref ++ c, e)
      else
        let layerOpt := env.readLayer lm.path (lm.opacity.getD (1 / 2))
          (lm.colormap.getD "warm") (lm.colormap_negative.getD "winter")
          (lm.use_negative_cmap.getD false) lm.cal_min lm.cal_max
          (lm.frame4D.getD 0)
        let mesh1 := { mesh with layers := mesh.layers ++ [layerOpt] }
        match layerOpt with
        | none =>
            let (mesh', t, c, e) := processLayers env mesh1 rest (i + 1)
            (mesh', t, c, Ev.decodeLayer lm.path.name :: e)
        | some _ =>
            let (mesh', t, c, e) := processLayers env mesh1 rest (i + 1)
            (mesh', layerTokens lref ++ t, layerTokens lref ++ c,
             Ev.decodeLayer lm.path.name :: e)

/-- Shared tail of `create_mesh`: process the gathered layer models, write
the adopted/constructed mesh back into the renderer array when adopting,
write the renderer-assigned id and computed name into the backend
descriptor and commit (`set`/`set`/`save_changes`), and attach the mesh
property listeners.  `adopt` is the index of the adopted mesh in
`nv.meshes`, or none when a fresh mesh was constructed. -/
def create_mesh_tail (env : Env) (refId : String) (m : MeshModel)
    (adopt : Option Nat) (mesh0 : NVMesh) (st : RState) (evs0 : List Ev) :
    Option (NVMesh × List Listener × RState × List Ev) :=
  match (if m.layers.isEmpty then some []
         else gather_models env.layerModels m.layers) with
  | none => none
  | some lms =>
      let pl := processLayers env mesh0 lms 0
      let mesh1 := pl.1
      let st1 :=
        match adopt with
        | some idx => { st with nvMeshes := st.nvMeshes.set idx mesh1 }
        | none => st
      let st2 := { st1 with
        meshModels := omapSet st1.meshModels refId
          { m with id := mesh1.id, name := mesh1.name, unsaved := false }
        listeners := st1.listeners ++ pl.2.1 ++ meshTokens refId }
      some (mesh1, meshTokens refId ++ pl.2.2.1, st2,
            evs0 ++ pl.2.2.2 ++ [Ev.save refId])

/-- The `create_mesh` of `mesh.ts` (latest revision): adopt the existing
renderer mesh when the descriptor path is the preloaded sentinel (failing,
as the JS code would with an undefined mesh, when no entity of that id
exists), or parse the payload into a fresh mesh; then run the shared tail.
Returns the mesh, the cleanup returned to the caller, the new state and
the events, or none when the JS code would throw or reject. -/
def create_mesh (env : Env) (refId : String) (st : RState) :
    Option (NVMesh × List Listener × RState × List Ev) :=
  match omapGet st.meshModels refId with
  | none => none
  | some m =>
      if m.path.name = preloaded then
        match jsFindIndex (fun mm => mm.id = m.id) st.nvMeshes with
        | none => none
        | some idx =>
            match st.nvMeshes.get? idx with
            | none => none
            | some mesh0 => create_mesh_tail env refId m (some idx) mesh0 st []
      else
        let mesh0 := mkMesh (env.freshId st.fresh) m
        create_mesh_tail env refId m none mesh0
          { st with fresh := st.fresh + 1 } [Ev.decodeMesh m.path.name]

/-- The creation-pass condition of `render_meshes`: the backend key is
absent from the frontend map, or the descriptor id is still empty, or the
descriptor is preloaded and an entity with its id already exists (the
defensive re-verification branch). -/
def addCond (fmap : List (String × NVMesh)) (st : RState) (key : String)
    (m : MeshModel) : Bool :=
  !(omapHas fmap key) || m.id = "" ||
    (m.path.name = preloaded &&
      (jsFindIndex (fun mm => mm.id = m.id) st.nvMeshes).isSome)

/-- niivue's `addMesh`: push the mesh onto the live collection. -/
def addMeshOp (st : RState) (mesh : NVMesh) : RState × List Ev :=
  ({ st with nvMeshes := st.nvMeshes ++ [mesh] }, [Ev.addMesh mesh.id])

/-- niivue's `removeMesh`: drop the entity from the live collection. -/
def removeMeshOp (st : RState) (mesh : NVMesh) : RState × List Ev :=
  ({ st with nvMeshes := st.nvMeshes.filter (fun mm => mm.id ≠ mesh.id) },
   [Ev.removeMesh mesh.id])

/-- Modelled from the spec: `dispose` of the missing `lib.ts` Disposer
(spec section 4.1): invoke and remove the cleanup action for the id if
present (running the registered listener teardown), no-op otherwise. -/
def disposeOp (st : RState) (id : String) : RState × List Ev :=
  match omapGet st.disposer id with
  | none => (st, [])
  | some cleanup =>
      ({ st with
          listeners := cleanup.foldl (fun acc t => acc.erase t) st.listeners
          disposer := omapDel st.disposer id },
       [Ev.disposeRun id cleanup])

/-- The creation pass of `render_meshes` (the `for ... of
backend_mesh_map.entries()` loop): create or adopt each entity whose
condition holds, register its cleanup with the Disposer keyed by the mesh
id, and call the renderer's add operation only when the descriptor path is
not the preloaded sentinel. -/
def addPass (env : Env) (fmap : List (String × NVMesh)) :
    List (String × String) → RState → Option (RState × List Ev)
  | [], st => some (st, [])
  | (key, refId) :: rest, st =>
      match omapGet st.meshModels refId with
      | none => none
      | some m =>
          if addCond fmap st key m then
            match create_mesh env refId st with
            | none => none
            | some (mesh, cleanup, st1, evs1) =>
                let st2 := { st1 with
                  disposer := Disposer.register st1.disposer mesh.id cleanup }
                match omapGet st2.meshModels refId with
                | none => none
                | some m2 =>
                    let ae :=
                      if m2.path.name ≠ preloaded then addMeshOp st2 mesh
                      else (st2, [])
                    match addPass env fmap rest ae.1 with
                    | none => none
                    | some (st4, evs3) => some (st4, evs1 ++ ae.2 ++ evs3)
          else addPass env fmap rest st

/-- The removal pass of `render_meshes`: for every frontend-map key absent
from the backend map, remove the entity and invoke the Disposer for its id. -/
def removePass (bmap : List (String × String)) :
    List (String × NVMesh) → RState → RState × List Ev
  | [], st => (st, [])
  | (key, mesh) :: rest, st =>
      if !(omapHas bmap key) then
        let rm := removeMeshOp st mesh
        let dp := disposeOp rm.1 mesh.id
        let rc := removePass bmap rest dp.1
        (rc.1, rm.2 ++ dp.2 ++ rc.2)
      else removePass bmap rest st

/-- The body of the reorder pass of `render_meshes`: walk the backend
descriptor list in order, looking each descriptor's (possibly just
assigned) id up in the current renderer array and pushing the match onto
`new_meshes_order`, discarding entities that cannot be matched. -/
def reorderList (st : RState) : List String → List NVMesh
  | [] => []
  | refId :: rest =>
      match omapGet st.meshModels refId with
      | none => reorderList st rest
      | some m =>
          match st.nvMeshes.find? (fun mesh => mesh.id = m.id) with
          | some mesh => mesh :: reorderList st rest
          | none => reorderList st rest

/-- The reorder pass of `render_meshes`: replace `nv.meshes` with
`new_meshes_order`, the renderer entities in backend order. -/
def reorderPass (st : RState) : RState :=
  { st with nvMeshes := reorderList st st.meshesList }

/-- The `render_meshes` of `mesh.ts` (latest revision): gather the backend
mesh models, build the two insertion-ordered maps (with `__temp_id__`
placeholders for empty ids), run the creation pass, the removal pass and
the reorder pass.  Returns none when the JS code would reject (a failed
batch resolution or an adoption of a missing entity aborts the pass). -/
def render_meshes (env : Env) (st : RState) : Option (RState × List Ev) :=
  match gather_models st.meshModels st.meshesList with
  | none => none
  | some ms =>
      let bmap := buildKeyed ((keyedEntries (fun rm => rm.2.id) ms 0).map
        (fun p => (p.1, p.2.1)))
      let fmap := buildKeyed (keyedEntries (fun mesh => mesh.id) st.nvMeshes 0)
      match addPass env fmap bmap st with
      | none => none
      | some (st1, evs1) =>
          let rp := removePass bmap fmap st1
          some (reorderPass rp.1, evs1 ++ rp.2)

/-! Classification helpers and invariants for the reconciliation passes. -/

/-- The descriptor id currently recorded for a backend reference (the JS
expression `mmodel.get("id") || ""`). -/
def modelId (st : RState) (r : String) : String :=
  ((omapGet st.meshModels r).map MeshModel.id).getD ""

/-- Whether an event is a layer-payload decode. -/
def Ev.isDecodeLayer : Ev → Bool
  | Ev.decodeLayer _ => true
  | _ => false

/-- Whether an event is a mesh-payload decode (an entity creation). -/
def Ev.isDecodeMesh : Ev → Bool
  | Ev.decodeMesh _ => true
  | _ => false

/-- Whether an event is a renderer add operation. -/
def Ev.isAddMesh : Ev → Bool
  | Ev.addMesh _ => true
  | _ => false

/-- Whether an event is a renderer removal of the given id. -/
def Ev.isRemoveMeshFor (id0 : String) : Ev → Bool
  | Ev.removeMesh i => i = id0
  | _ => false

/-- Whether an event is a Disposer invocation for the given id. -/
def Ev.isDisposeRunFor (id0 : String) : Ev → Bool
  | Ev.disposeRun i _ => i = id0
  | _ => false

/-- Whether an event is a renderer removal. -/
def Ev.isRemoveMesh : Ev → Bool
  | Ev.removeMesh _ => true
  | _ => false

/-- Whether an event is a Disposer invocation. -/
def Ev.isDisposeRun : Ev → Bool
  | Ev.disposeRun _ _ => true
  | _ => false

/-- The outcome bundle of the creation pass, used to chain the removal and
reorder passes: registry frame, id-nonemptiness, id-set growth, uuid
consumption bounds, the creation invariant for every processed entry, the
Disposer frame, and the shape of the emitted events. -/
def AddOut (env : Env) (rem : List (String × String)) (st st' : RState)
    (evs : List Ev) : Prop :=
  (∀ r : String, (∀ p ∈ rem, p.2 ≠ r) →
    omapGet st'.meshModels r = omapGet st.meshModels r) ∧
  (∀ i ∈ st'.nvMeshes.map NVMesh.id, i ≠ "") ∧
  (∀ i ∈ st.nvMeshes.map NVMesh.id, i ∈ st'.nvMeshes.map NVMesh.id) ∧
  (st.fresh ≤ st'.fresh ∧ st'.fresh ≤ st.fresh + rem.length) ∧
  (∀ p ∈ rem, modelId st' p.2 ≠ "" ∧
    modelId st' p.2 ∈ st'.nvMeshes.map NVMesh.id ∧
    (modelId st' p.2 = p.1 ∨
      (∃ j, st.fresh ≤ j ∧ j < st'.fresh ∧
        modelId st' p.2 = env.freshId j))) ∧
  (∀ i : String,
    (∀ p ∈ rem, ∀ msnap : MeshModel,
      omapGet st.meshModels p.2 = some msnap → i ≠ msnap.id) →
    (∀ j, st.fresh ≤ j → j < st'.fresh → i ≠ env.freshId j) →
    omapGet st'.disposer i = omapGet st.disposer i) ∧
  (∀ ev ∈ evs, ev.isRemoveMesh = false ∧ ev.isDisposeRun = false)

/-- The backend descriptors a reconciliation pass would gather from the
current state (empty when some reference does not resolve). -/
def backendSnap (st : RState) : List (String × MeshModel) :=
  (gather_models st.meshModels st.meshesList).getD []

/-- The keys of the backend map the pass would build. -/
def backendKeys (st : RState) : List String :=
  (keyedEntries (fun rm => rm.2.id) (backendSnap st) 0).map Prod.fst

/-- The keys of the frontend map the pass would build. -/
def frontendKeys (st : RState) : List String :=
  (keyedEntries (fun mesh => mesh.id) st.nvMeshes 0).map Prod.fst

/-- Sanity conditions on a state and environment under which the
reconciliation pass is analysed: every backend reference resolves, the
reference list and the backend map keys have no duplicates, every live
renderer entity has a nonempty id, and the external uuids consumed during
the pass are nonempty and fresh with respect to the live entities. -/
def WFpass (env : Env) (st : RState) : Prop :=
  (∀ r ∈ st.meshesList, (omapGet st.meshModels r).isSome = true) ∧
  st.meshesList.Nodup ∧
  (backendKeys st).Nodup ∧
  (∀ i ∈ st.nvMeshes.map NVMesh.id, i ≠ "") ∧
  (∀ d, d < (backendSnap st).length →
    env.freshId (st.fresh + d) ≠ "" ∧
    ∀ i ∈ st.nvMeshes.map NVMesh.id, env.freshId (st.fresh + d) ≠ i)

/-- The backend map entry list (key, reference id) the pass builds from the
gathered models, before JS Map dedup. -/
def bmapOf (ms : List (String × MeshModel)) : List (String × String) :=
  (keyedEntries (fun rm => rm.2.id) ms 0).map (fun p => (p.1, p.2.1))

/-- The frontend map the pass builds from the live renderer array. -/
def fmapOf (st : RState) : List (String × NVMesh) :=
  buildKeyed (keyedEntries (fun mesh => mesh.id) st.nvMeshes 0)

/-! Concrete fixtures used to instantiate the verified properties on
closed inputs. -/

/-- A payload file for a decodable mesh layer. -/
def layFileW : NvFile := { name := "lay.mz3", data := [1] }

/-- A backend layer descriptor whose optional properties are all unset, so
the source's nullish defaults apply. -/
def lmW : MeshLayerModel :=
  { path := layFileW, opacity := none, colormap := none,
    colormap_negative := none, use_negative_cmap := none, cal_min := none,
    cal_max := none, frame4D := none }

/-- A concrete external layer reader: fails exactly on empty payloads. -/
def readLayerW (f : NvFile) (op : ℚ) (cm : String) (cmn : String)
    (un : Bool) (cmin : Option ℚ) (cmax : Option ℚ) (fr : ℚ) :
    Option NVMeshLayer :=
  if f.data.isEmpty then none else
    some { id := "L" ++ f.name, opacity := op, colormap := cm,
           colormapNegative := cmn, useNegativeCmap := un,
           cal_min := cmin, cal_max := cmax, frame4D := fr }

/-- A concrete environment: sequential renderer-assigned ids and the layer
reader above. -/
def envW : Env :=
  { freshId := fun k => "#" ++ Nat.repr k
    readLayer := readLayerW
    layerModels := [("lr1", lmW)] }

/-- A concrete environment with an empty layer registry, for scenarios
whose descriptors carry no decodable layers. -/
def envP : Env :=
  { freshId := fun k => "#" ++ Nat.repr k
    readLayer := readLayerW
    layerModels := [] }

/-- A backend mesh descriptor not yet materialised (empty id, one layer
reference). -/
def mW : MeshModel :=
  { path := { name := "brain.obj", data := [1, 2] }, id := "", name := "",
    rgba255 := [255, 0, 0, 255], opacity := 1, layers := ["lr1"],
    visible := true, colormap_invert := false, unsaved := false }

/-- An initial state holding the single descriptor `mW` and no live
renderer entities. -/
def stW : RState :=
  { meshModels := [("r1", mW)], meshesList := ["r1"], nvMeshes := [],
    listeners := [], disposer := [], fresh := 0 }

/-- A layer descriptor whose payload is empty, so the concrete reader
fails on it. -/
def lmBad : MeshLayerModel :=
  { path := { name := "bad.mz3", data := [] }, opacity := none,
    colormap := none, colormap_negative := none, use_negative_cmap := none,
    cal_min := none, cal_max := none, frame4D := none }

/-- An environment holding a failing layer and a decodable sibling. -/
def env9 : Env :=
  { freshId := fun k => "#" ++ Nat.repr k
    readLayer := readLayerW
    layerModels := [("lrJ", lmBad), ("lr1", lmW)] }

/-- A mesh descriptor referencing the failing layer and its sibling. -/
def m9 : MeshModel :=
  { path := { name := "brain.obj", data := [1, 2] }, id := "", name := "",
    rgba255 := [255, 0, 0, 255], opacity := 1, layers := ["lrJ", "lr1"],
    visible := true, colormap_invert := false, unsaved := false }

/-- An initial state holding the two-layer descriptor `m9`. -/
def st9 : RState :=
  { meshModels := [("r9", m9)], meshesList := ["r9"], nvMeshes := [],
    listeners := [], disposer := [], fresh := 0 }

/-- The layer object the concrete reader produces for `lmW`. -/
def lay9 : NVMeshLayer :=
  { id := "Llay.mz3", opacity := 1 / 2, colormap := "warm",
    colormapNegative := "winter", useNegativeCmap := false,
    cal_min := none, cal_max := none, frame4D := 0 }

/-- A live renderer entity with no backend counterpart. -/
def meshX : NVMesh :=
  { id := "X", name := "x", rgba255 := [], opacity := 1, visible := true,
    layers := [] }

/-- A state where `meshX` is live, its listener teardown is registered in
the Disposer, and the backend descriptor list is empty: the removal
scenario. -/
def stW2 : RState :=
  { meshModels := [], meshesList := [], nvMeshes := [meshX],
    listeners := [("rX", "opacity")],
    disposer := [("X", [("rX", "opacity")])], fresh := 0 }

/-- A preloaded-sentinel descriptor matching the live entity `meshX`. -/
def mP : MeshModel :=
  { path := { name := "<preloaded>", data := [] }, id := "X", name := "x",
    rgba255 := [], opacity := 1, layers := [], visible := true,
    colormap_invert := false, unsaved := false }

/-- A state where the preloaded descriptor `mP` refers to the live entity
`meshX`: the adoption scenario. -/
def stW3 : RState :=
  { meshModels := [("rp", mP)], meshesList := ["rp"], nvMeshes := [meshX],
    listeners := [], disposer := [], fresh := 0 }

/-! Embedding of the widget-level glue in `src/js/widget.ts`: the
`onImageLoaded`/`onMeshLoaded` event bridge, the custom-message dispatch,
the collection-change guards and the `initialize`/`render` lifecycle. -/

/-- Backend volume descriptor (the `VolumeModel` of `src/js/types.ts`);
the event bridge only ever reads its `id`. -/
structure VolumeModel where
  path : NvFile
  id : String
  name : String
  colormap : String
  opacity : ℚ
  visible : Bool
  colorbar_visible : Bool
  cal_min : Option ℚ
  cal_max : Option ℚ
  colormap_invert : Bool
  deriving DecidableEq, Repr

/-- A live renderer-side volume (niivue's `NVImage`), restricted to the
fields the event bridge snapshots. -/
structure NVImage where
  id : String
  name : String
  colormap : String
  opacity : ℚ
  colorbarVisible : Bool
  cal_min : Option ℚ
  cal_max : Option ℚ
  deriving DecidableEq, Repr

/-- The volume descriptor snapshot `onImageLoaded` sends in an
`add_volume` message. -/
structure VolumeSnap where
  path : String
  id : String
  name : String
  colormap : String
  opacity : ℚ
  colorbar_visible : Bool
  cal_min : Option ℚ
  cal_max : Option ℚ
  index : Int
  deriving DecidableEq, Repr

/-- The per-layer snapshot `onMeshLoaded` builds for `add_mesh`. -/
structure LayerSnap where
  path : String
  opacity : ℚ
  colormap : String
  colormap_negative : String
  use_negative_cmap : Bool
  cal_min : Option ℚ
  cal_max : Option ℚ
  frame4D : ℚ
  id : String
  deriving DecidableEq, Repr

/-- The mesh descriptor snapshot `onMeshLoaded` sends in an `add_mesh`
message. -/
structure MeshSnap where
  path : String
  id : String
  name : String
  rgba255 : List Nat
  opacity : ℚ
  visible : Bool
  layers : List LayerSnap
  index : Int
  deriving DecidableEq, Repr

/-- Outbound messages of the `onImageLoaded`/`onMeshLoaded` bridge. -/
inductive OutMsg where
  | addVolume (data : VolumeSnap)
  | imageLoaded (id : String)
  | addMesh (data : MeshSnap)
  | meshLoaded (id : String)
  deriving DecidableEq, Repr

/-- The JS `v.slice("IPY_MODEL_".length)` turning a widget reference into
a model id. -/
def stripModelPrefix (v : String) : String :=
  v.drop ("IPY_MODEL_".length)

/-- JS `Array.prototype.findIndex`: the index of the first match, `-1`
when absent (also niivue's `getVolumeIndexByID`). -/
def jsFindIndexOr (p : α → Bool) (l : List α) : Int :=
  match jsFindIndex p l with
  | some i => (i : Int)
  | none => -1

/-- The id list `onImageLoaded` computes: resolve every `_volumes`
reference through the widget manager and read `vmodel?.get("id") || ""`. -/
def backendVolumeIds (wm : List (String × VolumeModel))
    (vrefs : List String) : List String :=
  vrefs.map (fun v =>
    ((omapGet wm (stripModelPrefix v)).map VolumeModel.id).getD "")

/-- The id list `onMeshLoaded` computes from the `_meshes` references. -/
def backendMeshIds (wm : List (String × MeshModel))
    (mrefs : List String) : List String :=
  mrefs.map (fun v =>
    ((omapGet wm (stripModelPrefix v)).map MeshModel.id).getD "")

/-- The descriptor snapshot `onImageLoaded` builds: every field copied
from the live volume, `path` set to the preloaded sentinel, and the
volume's current index in `nv.volumes`. -/
def volumeSnap (nvVols : List NVImage) (v : NVImage) : VolumeSnap :=
  { path := preloaded, id := v.id, name := v.name, colormap := v.colormap,
    opacity := v.opacity, colorbar_visible := v.colorbarVisible,
    cal_min := v.cal_min, cal_max := v.cal_max,
    index := jsFindIndexOr (fun vv => vv.id = v.id) nvVols }

/-- The `onImageLoaded` handler of `widget.ts`: when the loaded volume's
id is not among the backend ids, send `add_volume` with a preloaded-path
snapshot; always send `image_loaded` with the volume's id. -/
def onImageLoaded (wm : List (String × VolumeModel)) (vrefs : List String)
    (nvVols : List NVImage) (volume : NVImage) : List OutMsg :=
  if volume.id ∉ backendVolumeIds wm vrefs then
    [OutMsg.addVolume (volumeSnap nvVols volume),
     OutMsg.imageLoaded volume.id]
  else
    [OutMsg.imageLoaded volume.id]

/-- One layer snapshot of the `layersData` loop of `onMeshLoaded`: every
field copied from the live layer, `path` set to the preloaded sentinel,
`id` the (possibly uuid-filled) layer id.  A JS-undefined layer entry
makes the handler throw, which `snapLayers` models as `none`. -/
def layerSnapOf (l : NVMeshLayer) (lid : String) : LayerSnap :=
  { path := preloaded
    opacity := l.opacity
    colormap := l.colormap
    colormap_negative := l.colormapNegative
    use_negative_cmap := l.useNegativeCmap
    cal_min := l.cal_min
    cal_max := l.cal_max
    frame4D := l.frame4D
    id := lid }

/-- The `layersData` loop body: a layer with a falsy id consumes the next
uuid (the JS code writes it into the layer before snapshotting). -/
def snapLayers (uuid : Nat → String) :
    List (Option NVMeshLayer) → Nat → Option (List LayerSnap)
  | [], _ => some []
  | none :: _, _ => none
  | some l :: rest, k =>
      let lid := if l.id = "" then uuid k else l.id
      let k2 := if l.id = "" then k + 1 else k
      match snapLayers uuid rest k2 with
      | none => none
      | some s => some (layerSnapOf l lid :: s)

/-- The descriptor snapshot `onMeshLoaded` builds for `add_mesh`. -/
def meshSnap (nvMeshes : List NVMesh) (mesh : NVMesh)
    (ls : List LayerSnap) : MeshSnap :=
  { path := preloaded, id := mesh.id, name := mesh.name,
    rgba255 := mesh.rgba255, opacity := mesh.opacity,
    visible := mesh.visible, layers := ls,
    index := jsFindIndexOr (fun m => m.id = mesh.id) nvMeshes }

/-- The `onMeshLoaded` handler of `widget.ts`: when the loaded mesh's id
is not among the backend ids, send `add_mesh` with a preloaded-path
snapshot (uuid-filling falsy layer ids); always send `mesh_loaded`. -/
def onMeshLoaded (wm : List (String × MeshModel)) (mrefs : List String)
    (nvMeshes : List NVMesh) (uuid : Nat → String) (mesh : NVMesh) :
    Option (List OutMsg) :=
  if mesh.id ∉ backendMeshIds wm mrefs then
    match snapLayers uuid mesh.layers 0 with
    | none => none
    | some ls =>
        some [OutMsg.addMesh (meshSnap nvMeshes mesh ls),
          OutMsg.meshLoaded mesh.id]
  else
    some [OutMsg.meshLoaded mesh.id]

/-- An untyped JS value carried by a custom message. -/
inductive JVal where
  | str (s : String)
  | num (q : ℚ)
  | boolean (b : Bool)
  | arr (l : List JVal)
  | obj (fields : List (String × JVal))

/-- JS member access `v.k`: `none` models undefined. -/
def jmem (v : JVal) (k : String) : Option JVal :=
  match v with
  | JVal.obj fields => omapGet fields k
  | _ => none

/-- The renderer mutator calls the custom-message handler can make. -/
inductive NvCall where
  | saveScene (data : JVal)
  | addColormap (name : Option JVal) (cmap : Option JVal)
  | setGamma (data : JVal)
  | setClipPlane (data : JVal)
  | setMeshShader (meshId : Option JVal) (shader : Option JVal)

/-- The `msg:custom` switch of `attachModelEventHandlers` in `widget.ts`:
five recognised message types each dispatch one renderer call; any other
type falls through the switch with no call and no error. -/
def handleCustomMsg (ty : String) (data : JVal) : List NvCall :=
  if ty = "save_scene" then [NvCall.saveScene data]
  else if ty = "add_colormap" then
    [NvCall.addColormap (jmem data "name") (jmem data "cmap")]
  else if ty = "set_gamma" then [NvCall.setGamma data]
  else if ty = "set_clip_plane" then [NvCall.setClipPlane data]
  else if ty = "set_mesh_shader" then
    [NvCall.setMeshShader (jmem data "mesh_id") (jmem data "shader")]
  else []

/-- The `change:_volumes` / `change:_meshes` handlers of
`attachModelEventHandlers`: run the reconciliation pass only when
`nv.canvas` is truthy; otherwise do nothing (no state change, no queued
work). -/
def onCollectionChange (hasCanvas : Bool)
    (pass : RState → Option (RState × List Ev)) (st : RState) :
    Option (RState × List Ev) :=
  if hasCanvas then pass st else some (st, [])

/-- Widget lifecycle state: the module-level `nvMap` renderer cache keyed
by the backend model id (renderer instances numbered by creation order),
the number of renderers constructed, which renderers have their canvas
attached to a parent node, and the attached model event listeners. -/
structure WState where
  nvMap : List (String × Nat)
  nvCount : Nat
  attached : List Nat
  listeners : List (String × String)
  deriving DecidableEq, Repr

/-- Observable lifecycle effects. -/
inductive WEv where
  | newNiivue (tok : Nat)
  | attachCanvas (tok : Nat)
  | loadVolumes (tok : Nat)
  | loadMeshes (tok : Nat)
  | moveContainer (tok : Nat)
  | removeContainer (tok : Nat)
  | disposeAll
  | deleteCache (modelId : String)
  deriving DecidableEq, Repr

/-- The two teardown closures the lifecycle hands back: the one returned
by `render` and the one returned by `initialize`. -/
inductive Cleanup where
  | renderCleanup (tok : Nat)
  | initCleanup (modelId : String)
  deriving DecidableEq, Repr

/-- The six `model.off(...)` event names of the `initialize` teardown. -/
def offNames : List String :=
  ["change:_volumes", "change:_meshes", "change:_opts",
   "change:background_masks_overlays", "msg:custom", "change:height"]

/-- The model listeners `attachModelEventHandlers` installs. -/
def modelHandlers (mid : String) : List (String × String) :=
  [(mid, "change:_volumes"), (mid, "change:_meshes"), (mid, "change:_opts"),
   (mid, "change:background_masks_overlays"), (mid, "msg:custom")]

/-- The `initialize` hook of `widget.ts`: reuse the cached renderer for
the model id or construct and cache a new one, attach the model event
handlers, and return the full-teardown closure. -/
def initializeWidget (mid : String) (st : WState) :
    WState × Cleanup × List WEv :=
  match omapGet st.nvMap mid with
  | some _ =>
      ({ st with listeners := st.listeners ++ modelHandlers mid },
       Cleanup.initCleanup mid, [])
  | none =>
      ({ st with
          nvMap := omapSet st.nvMap mid st.nvCount
          nvCount := st.nvCount + 1
          listeners := st.listeners ++ modelHandlers mid },
       Cleanup.initCleanup mid, [WEv.newNiivue st.nvCount])

/-- The `render` hook of `widget.ts`: fail when the cache has no renderer
for the model id; on first render (canvas without a parent node) build
the container, attach the height listener and the canvas, and load the
volumes and meshes; on a re-render just move the existing container.
Either way return the detach-only teardown closure. -/
def renderWidget (mid : String) (st : WState) :
    Option (WState × Cleanup × List WEv) :=
  match omapGet st.nvMap mid with
  | none => none
  | some tok =>
      if tok ∈ st.attached then
        some (st, Cleanup.renderCleanup tok, [WEv.moveContainer tok])
      else
        some ({ st with
            attached := tok :: st.attached
            listeners := st.listeners ++ [(mid, "change:height")] },
          Cleanup.renderCleanup tok,
          [WEv.attachCanvas tok, WEv.loadVolumes tok, WEv.loadMeshes tok])

/-- Running a teardown closure: the `render` one only removes the canvas
container from the DOM (the disposer call in its body is commented out);
the `initialize` one runs the full disposer, removes the six model
listeners and deletes the renderer cache entry. -/
def runCleanup : Cleanup → WState → WState × List WEv
  | Cleanup.renderCleanup tok, st =>
      ({ st with attached := st.attached.erase tok },
       [WEv.removeContainer tok])
  | Cleanup.initCleanup mid, st =>
      ({ st with
          listeners := st.listeners.filter
            (fun l => !(l.1 = mid && offNames.contains l.2))
          nvMap := omapDel st.nvMap mid },
       [WEv.disposeAll, WEv.deleteCache mid])

/-- A concrete uuid stream for the event-bridge fixtures. -/
def uuidW : Nat → String := fun k => "u" ++ Nat.repr k

/-- A live renderer volume for the event-bridge fixtures. -/
def volW : NVImage :=
  { id := "V", name := "vol.nii", colormap := "gray", opacity := 1,
    colorbarVisible := false, cal_min := none, cal_max := none }

/-- A lifecycle state with one cached, attached renderer. -/
def stL : WState :=
  { nvMap := [("w1", 0)], nvCount := 1, attached := [0],
    listeners := [("w1", "change:_volumes"), ("w1", "change:_meshes")] }

/-! Basic properties of the ordered-map model and of the gather helper. -/

@[simp] theorem omapGet_nil (k : String) : omapGet ([] : List (String × α)) k = none := rfl

theorem omapGet_cons (k' k : String) (v : α) (m : List (String × α)) :
    omapGet ((k', v) :: m) k = if k' = k then some v else omapGet m k := rfl

@[simp] theorem omapGet_set_self (m : List (String × α)) (k : String) (v : α) :
    omapGet (omapSet m k v) k = some v := by
  induction m with
  | nil => simp [omapSet, omapGet]
  | cons p rest ih =>
      by_cases h : p.1 = k
      · simp [omapSet, omapGet, h]
      · simpa [omapSet, omapGet, h] using ih

theorem omapGet_set_ne (m : List (String × α)) (k k' : String) (v : α)
    (h : k ≠ k') : omapGet (omapSet m k v) k' = omapGet m k' := by
  induction m with
  | nil => simp [omapSet, omapGet, h]
  | cons p rest ih =>
      by_cases hp : p.1 = k
      · simp [omapSet, omapGet, hp, h]
      · simp [omapSet, omapGet, hp, ih]

theorem omapGet_del_ne (m : List (String × α)) (k k' : String)
    (h : k ≠ k') : omapGet (omapDel m k) k' = omapGet m k' := by
  induction m with
  | nil => simp [omapDel]
  | cons p rest ih =>
      by_cases hp : p.1 = k
      · subst hp; simp [omapDel, omapGet, h]
      · simp [omapDel, omapGet, hp, ih]

theorem omapHas_iff_mem_keys (m : List (String × α)) (k : String) :
    omapHas m k = true ↔ k ∈ m.map Prod.fst := by
  induction m with
  | nil => simp [omapHas]
  | cons p rest ih =>
      by_cases hp : p.1 = k
      · simp [omapHas, hp]
      · simp [omapHas, hp, ih, Ne.symm hp]

theorem omapGet_eq_some_of_has (m : List (String × α)) (k : String)
    (h : omapHas m k = true) : ∃ v, omapGet m k = some v := by
  induction m with
  | nil => simp [omapHas] at h
  | cons p rest ih =>
      by_cases hp : p.1 = k
      · exact ⟨p.2, by simp [omapGet, hp]⟩
      · obtain ⟨v, hv⟩ := ih (by simpa [omapHas, hp] using h)
        exact ⟨v, by simp [omapGet, hp, hv]⟩

theorem mem_of_omapGet_eq_some (m : List (String × α)) (k : String) (v : α)
    (h : omapGet m k = some v) : (k, v) ∈ m := by
  induction m with
  | nil => simp [omapGet] at h
  | cons p rest ih =>
      by_cases hp : p.1 = k
      · rw [omapGet_cons, if_pos hp] at h
        have : p = (k, v) := by
          cases p with
          | mk a b => cases h; cases hp; rfl
        exact this ▸ List.mem_cons_self _ _
      · exact List.mem_cons_of_mem _ (ih (by simpa [omapGet, hp] using h))

theorem omapSet_eq_append_of_not_has (m : List (String × α)) (k : String)
    (v : α) (h : omapHas m k = false) : omapSet m k v = m ++ [(k, v)] := by
  induction m with
  | nil => simp [omapSet]
  | cons p rest ih =>
      by_cases hp : p.1 = k
      · simp [omapHas, hp] at h
      · simp [omapHas, hp] at h
        simp [omapSet, hp, ih h]

theorem omapHas_append (m m' : List (String × α)) (k : String) :
    omapHas (m ++ m') k = (omapHas m k || omapHas m' k) := by
  induction m with
  | nil => simp [omapHas]
  | cons p rest ih =>
      by_cases hp : p.1 = k
      · simp [omapHas, hp]
      · simp [omapHas, hp, ih]

/-- Replaying a keyed list whose keys have no duplicates through `Map.set`
reproduces the list itself. -/
theorem buildKeyed_of_nodup (l : List (String × α))
    (h : (l.map Prod.fst).Nodup) : buildKeyed l = l := by
  suffices haux : ∀ acc : List (String × α),
      (∀ k, k ∈ acc.map Prod.fst → k ∉ l.map Prod.fst) →
      (l.map Prod.fst).Nodup →
      l.foldl (fun m p => omapSet m p.1 p.2) acc = acc ++ l by
    simpa using haux [] (by simp) h
  clear h
  induction l with
  | nil => intro acc _ _; simp
  | cons p rest ih =>
      intro acc hdisj hnodup
      have hnotacc : omapHas acc p.1 = false := by
        cases hacc : omapHas acc p.1 with
        | false => rfl
        | true =>
            exact absurd ((omapHas_iff_mem_keys acc p.1).mp hacc)
              (fun hm => hdisj p.1 hm (by simp))
      have hset := omapSet_eq_append_of_not_has acc p.1 p.2 hnotacc
      simp only [List.foldl_cons, hset]
      rw [ih (acc ++ [(p.1, p.2)])]
      · simp
      · intro k hk hmem
        rw [List.map_append] at hk
        rcases List.mem_append.mp hk with hk' | hk'
        · exact hdisj k hk'
            (by rw [List.map_cons]; exact List.mem_cons_of_mem _ hmem)
        · have hkp : k = p.1 := by simpa using hk'
          subst hkp
          exact (List.nodup_cons.mp (by simpa using hnodup)).1 hmem
      · exact (List.nodup_cons.mp (by simpa using hnodup)).2

/-- Every entry of the deduplicated map comes from the original list. -/
theorem buildKeyed_mem_sub (l : List (String × α)) (p : String × α)
    (h : p ∈ buildKeyed l) : p ∈ l := by
  suffices haux : ∀ acc : List (String × α),
      p ∈ l.foldl (fun m q => omapSet m q.1 q.2) acc → p ∈ acc ∨ p ∈ l by
    rcases haux [] (by simpa [buildKeyed] using h) with h' | h'
    · simp at h'
    · exact h'
  clear h
  induction l with
  | nil => intro acc hacc; exact Or.inl (by simpa using hacc)
  | cons q rest ih =>
      intro acc hacc
      have hstep : p ∈ omapSet acc q.1 q.2 → p ∈ acc ∨ p = q := by
        intro hin
        clear hacc ih
        induction acc with
        | nil =>
            simp [omapSet] at hin
            exact Or.inr (by cases q; simpa using hin)
        | cons a as iha =>
            by_cases ha : a.1 = q.1
            · simp only [omapSet, ha, if_pos rfl] at hin
              rcases List.mem_cons.mp hin with h' | h'
              · exact Or.inr (by cases q; simpa using h')
              · exact Or.inl (List.mem_cons_of_mem _ h')
            · simp only [omapSet, ha, if_neg ha] at hin
              rcases List.mem_cons.mp hin with h' | h'
              · exact Or.inl (h' ▸ List.mem_cons_self _ _)
              · rcases iha h' with h'' | h''
                · exact Or.inl (List.mem_cons_of_mem _ h'')
                · exact Or.inr h''
      rcases ih (omapSet acc q.1 q.2) (by simpa using hacc) with h' | h'
      · rcases hstep h' with h'' | h''
        · exact Or.inl h''
        · exact Or.inr (by simp [h''])
      · exact Or.inr (List.mem_cons_of_mem _ h')

/-- Building the map does not change which keys are present. -/
theorem omapHas_buildKeyed (l : List (String × α)) (k : String) :
    omapHas (buildKeyed l) k = omapHas l k := by
  suffices haux : ∀ acc : List (String × α),
      omapHas (l.foldl (fun m q => omapSet m q.1 q.2) acc) k =
        (omapHas acc k || omapHas l k) by
    simpa [buildKeyed, omapHas] using haux []
  induction l with
  | nil => intro acc; simp [omapHas]
  | cons q rest ih =>
      intro acc
      have hsetkeys : omapHas (omapSet acc q.1 q.2) k =
          (omapHas acc k || (q.1 = k)) := by
        clear ih
        induction acc with
        | nil => by_cases h : q.1 = k <;> simp [omapSet, omapHas, h]
        | cons a as iha =>
            by_cases ha : a.1 = q.1
            · by_cases hk : a.1 = k
              · simp [omapSet, omapHas, ha, hk, ha ▸ hk]
              · have : q.1 ≠ k := fun hc => hk (ha.trans hc)
                simp [omapSet, omapHas, ha, hk, this]
            · by_cases hk : a.1 = k
              · have hkq : ¬ k = q.1 := hk ▸ ha
                simp [omapSet, omapHas, ha, hk, hkq]
              · simp [omapSet, omapHas, ha, hk, iha]
      rw [List.foldl_cons, ih, hsetkeys]
      by_cases hq : q.1 = k <;> simp [omapHas, hq, Bool.or_assoc, Bool.or_comm]

theorem keyedEntries_map_snd (f : α → String) (l : List α) (i : Nat) :
    (keyedEntries f l i).map Prod.snd = l := by
  induction l generalizing i with
  | nil => simp [keyedEntries]
  | cons a rest ih => simp [keyedEntries, ih]

theorem keyedEntries_length (f : α → String) (l : List α) (i : Nat) :
    (keyedEntries f l i).length = l.length := by
  induction l generalizing i with
  | nil => simp [keyedEntries]
  | cons a rest ih => simp [keyedEntries, ih]

theorem keyedEntries_mem (f : α → String) (l : List α) (i : Nat)
    (p : String × α) (h : p ∈ keyedEntries f l i) :
    p.2 ∈ l ∧ (∃ j, p.1 = jsKey (f p.2) j) := by
  induction l generalizing i with
  | nil => simp [keyedEntries] at h
  | cons a rest ih =>
      rcases List.mem_cons.mp h with h' | h'
      · subst h'
        exact ⟨by simp, ⟨i, rfl⟩⟩
      · obtain ⟨hmem, j, hj⟩ := ih (i + 1) h'
        exact ⟨List.mem_cons_of_mem _ hmem, ⟨j, hj⟩⟩

theorem keyedEntries_key_of_ne_empty (f : α → String) (l : List α) (i : Nat)
    (p : String × α) (h : p ∈ keyedEntries f l i) (hne : f p.2 ≠ "") :
    p.1 = f p.2 := by
  obtain ⟨_, j, hj⟩ := keyedEntries_mem f l i p h
  simpa [jsKey, hne] using hj

theorem keyedEntries_mem_of_mem (f : α → String) (l : List α) (i : Nat)
    (a : α) (h : a ∈ l) : ∃ j, (jsKey (f a) j, a) ∈ keyedEntries f l i := by
  induction l generalizing i with
  | nil => simp at h
  | cons b rest ih =>
      rcases List.mem_cons.mp h with h' | h'
      · subst h'
        exact ⟨i, List.mem_cons_self _ _⟩
      · obtain ⟨j, hj⟩ := ih (i + 1) h'
        exact ⟨j, List.mem_cons_of_mem _ hj⟩

/-- A successful gather returns exactly the registry models of the input
references, in order, paired with their references. -/
theorem gather_models_spec (reg : List (String × α)) (ids : List String)
    (ms : List (String × α)) (h : gather_models reg ids = some ms) :
    ms.map Prod.fst = ids ∧ ∀ p ∈ ms, omapGet reg p.1 = some p.2 := by
  induction ids generalizing ms with
  | nil =>
      simp only [gather_models, Option.some.injEq] at h
      subst h
      simp
  | cons r rest ih =>
      simp only [gather_models] at h
      cases hr : omapGet reg r with
      | none => rw [hr] at h; exact absurd h (by simp)
      | some m =>
          rw [hr] at h
          cases hrest : gather_models reg rest with
          | none => rw [hrest] at h; exact absurd h (by simp)
          | some ms' =>
              rw [hrest] at h
              simp only [Option.some.injEq] at h
              subst h
              obtain ⟨h1, h2⟩ := ih ms' hrest
              refine ⟨by simp [h1], ?_⟩
              intro p hp
              rcases List.mem_cons.mp hp with h' | h'
              · subst h'; exact hr
              · exact h2 p h'

/-- A gather succeeds exactly when every reference resolves. -/
theorem gather_models_isSome (reg : List (String × α)) (ids : List String)
    (h : ∀ r ∈ ids, (omapGet reg r).isSome) :
    ∃ ms, gather_models reg ids = some ms := by
  induction ids with
  | nil => exact ⟨[], rfl⟩
  | cons r rest ih =>
      obtain ⟨m, hm⟩ := Option.isSome_iff_exists.mp (h r (by simp))
      obtain ⟨ms', hms'⟩ := ih (fun r' hr' => h r' (List.mem_cons_of_mem _ hr'))
      exact ⟨(r, m) :: ms', by simp only [gather_models, hm, hms']⟩

theorem list_set_get?_eq {l : List α} {i : Nat} {a : α}
    (h : l.get? i = some a) : l.set i a = l := by
  induction l generalizing i with
  | nil => simp at h
  | cons b rest ih =>
      cases i with
      | zero =>
          simp only [List.get?] at h
          cases h
          simp
      | succ n =>
          simp only [List.get?] at h
          simp [List.set, ih h]

theorem list_map_set (f : α → β) (l : List α) (i : Nat) (a : α) :
    (l.set i a).map f = (l.map f).set i (f a) := by
  induction l generalizing i with
  | nil => simp
  | cons b rest ih =>
      cases i with
      | zero => simp
      | succ n => simp [List.set, ih]

theorem jsFindIndex_some (p : α → Bool) (l : List α) (i : Nat)
    (h : jsFindIndex p l = some i) : ∃ a, l.get? i = some a ∧ p a = true := by
  induction l generalizing i with
  | nil => simp [jsFindIndex] at h
  | cons a rest ih =>
      by_cases ha : p a
      · simp only [jsFindIndex, if_pos ha, Option.some.injEq] at h
        subst h
        exact ⟨a, rfl, ha⟩
      · simp only [jsFindIndex, if_neg ha] at h
        cases hrest : jsFindIndex p rest with
        | none => rw [hrest] at h; exact absurd h (by simp)
        | some j =>
            rw [hrest] at h
            simp only [Option.map_some', Option.some.injEq] at h
            obtain ⟨a', ha', hpa'⟩ := ih j hrest
            exact ⟨a', by simpa [← h] using ha', hpa'⟩

theorem jsFindIndex_isSome_of_mem (p : α → Bool) (l : List α) (a : α)
    (hmem : a ∈ l) (hp : p a = true) : (jsFindIndex p l).isSome := by
  induction l with
  | nil => simp at hmem
  | cons b rest ih =>
      by_cases hb : p b
      · simp [jsFindIndex, hb]
      · rcases List.mem_cons.mp hmem with h' | h'
        · subst h'; exact absurd hp hb
        · have := ih h'
          simp only [jsFindIndex, if_neg hb]
          cases hrest : jsFindIndex p rest with
          | none => rw [hrest] at this; simp at this
          | some j => simp

theorem processLayers_facts (env : Env) (mesh : NVMesh)
    (lms : List (String × MeshLayerModel)) (i : Nat) :
    (processLayers env mesh lms i).1.id = mesh.id ∧
    (processLayers env mesh lms i).1.name = mesh.name ∧
    ∀ ev ∈ (processLayers env mesh lms i).2.2.2, ∃ s, ev = Ev.decodeLayer s := by
  induction lms generalizing mesh i with
  | nil => simp [processLayers]
  | cons q rest ih =>
      obtain ⟨lref, lm⟩ := q
      by_cases hp : lm.path.name = preloaded
      · simp only [processLayers, if_pos hp]
        cases hj : (mesh.layers.get? i).join with
        | none => exact ih mesh (i + 1)
        | some _ =>
            obtain ⟨h1, h2, h3⟩ := ih mesh (i + 1)
            exact ⟨h1, h2, h3⟩
      · simp only [processLayers, if_neg hp]
        cases hl : env.readLayer lm.path (lm.opacity.getD (1 / 2))
            (lm.colormap.getD "warm") (lm.colormap_negative.getD "winter")
            (lm.use_negative_cmap.getD false) lm.cal_min lm.cal_max
            (lm.frame4D.getD 0) with
        | none =>
            obtain ⟨h1, h2, h3⟩ := ih
              { mesh with layers := mesh.layers ++ [none] } (i + 1)
            refine ⟨by simpa using h1, by simpa using h2, ?_⟩
            intro ev hev
            rcases List.mem_cons.mp hev with h' | h'
            · exact ⟨lm.path.name, h'⟩
            · exact h3 ev h'
        | some lay =>
            obtain ⟨h1, h2, h3⟩ := ih
              { mesh with layers := mesh.layers ++ [some lay] } (i + 1)
            refine ⟨by simpa using h1, by simpa using h2, ?_⟩
            intro ev hev
            rcases List.mem_cons.mp hev with h' | h'
            · exact ⟨lm.path.name, h'⟩
            · exact h3 ev h'

theorem create_mesh_tail_some_facts (env : Env) (refId : String)
    (m : MeshModel) (adopt : Option Nat) (mesh0 : NVMesh) (st : RState)
    (evs0 : List Ev) (mesh : NVMesh) (cl : List Listener) (st' : RState)
    (evs : List Ev)
    (h : create_mesh_tail env refId m adopt mesh0 st evs0 =
      some (mesh, cl, st', evs)) :
    mesh.id = mesh0.id ∧ mesh.name = mesh0.name ∧
    st'.meshModels = omapSet st.meshModels refId
      { m with id := mesh.id, name := mesh.name, unsaved := false } ∧
    st'.meshesList = st.meshesList ∧ st'.disposer = st.disposer ∧
    st'.fresh = st.fresh ∧
    (∃ L, st'.listeners = st.listeners ++ L) ∧
    (match adopt with
     | some idx => st'.nvMeshes = st.nvMeshes.set idx mesh
     | none => st'.nvMeshes = st.nvMeshes) ∧
    (∃ lE, evs = evs0 ++ lE ++ [Ev.save refId] ∧
      ∀ ev ∈ lE, ∃ s, ev = Ev.decodeLayer s) := by
  rw [create_mesh_tail] at h
  cases hg : (if m.layers.isEmpty then some []
      else gather_models env.layerModels m.layers) with
  | none => rw [hg] at h; exact absurd h (by simp)
  | some lms =>
      rw [hg] at h
      simp only [Option.some.injEq, Prod.mk.injEq] at h
      obtain ⟨h1, h2, h3, h4⟩ := h
      obtain ⟨hid, hname, hevl⟩ := processLayers_facts env mesh0 lms 0
      subst h1
      cases adopt with
      | none =>
          subst h3
          subst h4
          exact ⟨hid, hname, by simp, by simp, by simp, by simp,
            ⟨(processLayers env mesh0 lms 0).2.1 ++ meshTokens refId,
              by simp⟩,
            by simp, ⟨(processLayers env mesh0 lms 0).2.2.2, rfl, hevl⟩⟩
      | some idx =>
          subst h3
          subst h4
          exact ⟨hid, hname, by simp, by simp, by simp, by simp,
            ⟨(processLayers env mesh0 lms 0).2.1 ++ meshTokens refId,
              by simp⟩,
            by simp, ⟨(processLayers env mesh0 lms 0).2.2.2, rfl, hevl⟩⟩

theorem create_mesh_some_facts (env : Env) (refId : String) (st : RState)
    (mesh : NVMesh) (cl : List Listener) (st' : RState) (evs : List Ev)
    (h : create_mesh env refId st = some (mesh, cl, st', evs)) :
    ∃ m, omapGet st.meshModels refId = some m ∧
      st'.meshModels = omapSet st.meshModels refId
        { m with id := mesh.id, name := mesh.name, unsaved := false } ∧
      st'.meshesList = st.meshesList ∧
      st'.disposer = st.disposer ∧
      (∃ L, st'.listeners = st.listeners ++ L) ∧
      st'.nvMeshes.map NVMesh.id = st.nvMeshes.map NVMesh.id ∧
      (if m.path.name = preloaded
       then st'.fresh = st.fresh ∧ mesh.id = m.id ∧
         mesh.id ∈ st.nvMeshes.map NVMesh.id ∧
         (∀ ev ∈ evs, (∃ s, ev = Ev.decodeLayer s) ∨ ev = Ev.save refId)
       else st'.fresh = st.fresh + 1 ∧ mesh.id = env.freshId st.fresh ∧
         (∀ ev ∈ evs,
           ev = Ev.decodeMesh m.path.name ∨ (∃ s, ev = Ev.decodeLayer s) ∨
           ev = Ev.save refId)) := by
  cases hm : omapGet st.meshModels refId with
  | none => rw [create_mesh, hm] at h; exact absurd h (by simp)
  | some m =>
      simp only [create_mesh, hm] at h
      refine ⟨m, rfl, ?_⟩
      by_cases hp : m.path.name = preloaded
      · rw [if_pos hp] at h
        cases hfi : jsFindIndex (fun mm => mm.id = m.id) st.nvMeshes with
        | none => rw [hfi] at h; exact absurd h (by simp)
        | some idx =>
            simp only [hfi] at h
            cases hget : st.nvMeshes.get? idx with
            | none =>
                simp only [hget] at h
                exact absurd h (by simp)
            | some mesh0 =>
                simp only [hget] at h
                obtain ⟨hid, hname, hreg, hlist, hdisp, hfresh, hL, hnv,
                  lE, hevs, hlE⟩ :=
                  create_mesh_tail_some_facts env refId m (some idx) mesh0 st
                    [] mesh cl st' evs h
                obtain ⟨a, ha, hpa⟩ := jsFindIndex_some _ _ idx hfi
                have hae : a = mesh0 := by
                  rw [ha] at hget; exact Option.some.injEq _ _ ▸ hget
                have hmesh0id : mesh0.id = m.id := by
                  subst hae; exact of_decide_eq_true hpa
                have hmapid : st'.nvMeshes.map NVMesh.id =
                    st.nvMeshes.map NVMesh.id := by
                  simp only at hnv
                  rw [hnv, list_map_set]
                  exact list_set_get?_eq
                    (by rw [List.get?_map, hget, hid, hmesh0id,
                          ← hmesh0id, ← hid]
                        simp [hid, hmesh0id])
                refine ⟨hreg, hlist, hdisp, hL, hmapid, ?_⟩
                rw [if_pos hp]
                refine ⟨hfresh, by rw [hid, hmesh0id], ?_, ?_⟩
                · rw [hid, hmesh0id]
                  exact List.mem_map.mpr ⟨mesh0, List.get?_mem hget, hmesh0id⟩
                · intro ev hev
                  rw [hevs] at hev
                  simp only [List.nil_append, List.mem_append] at hev
                  rcases hev with hev | hev
                  · exact Or.inl (hlE ev hev)
                  · exact Or.inr (by simpa using hev)
      · rw [if_neg hp] at h
        obtain ⟨hid, hname, hreg, hlist, hdisp, hfresh, hL, hnv,
          lE, hevs, hlE⟩ :=
          create_mesh_tail_some_facts env refId m none
            (mkMesh (env.freshId st.fresh) m)
            { st with fresh := st.fresh + 1 } [Ev.decodeMesh m.path.name]
            mesh cl st' evs h
        simp only at hnv
        refine ⟨hreg, hlist, hdisp, hL, by rw [hnv], ?_⟩
        rw [if_neg hp]
        refine ⟨by rw [hfresh], by rw [hid]; rfl, ?_⟩
        intro ev hev
        rw [hevs] at hev
        simp only [List.mem_append, List.mem_singleton, List.mem_cons] at hev
        rcases hev with (hev | hev) | hev
        · simp at hev
          exact Or.inl hev
        · exact Or.inr (Or.inl (hlE ev hev))
        · rcases hev with hev | hev
          · exact Or.inr (Or.inr hev)
          · simp at hev

/-- A key present in the frontend map names an entity of the initial
renderer array, provided every live entity has a nonempty id. -/
theorem fmap_key_mem (st0 : RState)
    (hfront : ∀ mesh ∈ st0.nvMeshes, mesh.id ≠ "") (key : String)
    (hhas : omapHas
      (buildKeyed (keyedEntries (fun mesh => mesh.id) st0.nvMeshes 0))
      key = true) :
    key ∈ st0.nvMeshes.map NVMesh.id := by
  rw [omapHas_buildKeyed, omapHas_iff_mem_keys] at hhas
  obtain ⟨p, hp, hfst⟩ := List.mem_map.mp hhas
  obtain ⟨hmem, j, hj⟩ := keyedEntries_mem _ _ _ p hp
  have hne := hfront p.2 hmem
  rw [jsKey, if_neg hne] at hj
  exact List.mem_map.mpr ⟨p.2, hmem, by rw [← hj, hfst]⟩

theorem option_match_pair_inv {α : Type u} {β : Type v}
    (o : Option (α × List β)) (pre1 pre2 : List β) (a' : α) (bs : List β)
    (h : (match o with
      | none => none
      | some (a, b) => some (a, pre1 ++ pre2 ++ b)) = some (a', bs)) :
    ∃ tail, o = some (a', tail) ∧ bs = pre1 ++ pre2 ++ tail := by
  cases o with
  | none => simp at h
  | some q =>
      obtain ⟨a, b⟩ := q
      simp only [Option.some.injEq, Prod.mk.injEq] at h
      exact ⟨b, by rw [h.1], h.2.symm⟩

/-- Inversion of one step of the creation pass: either the condition is
false and the loop moves on, or an entity is created/adopted, registered,
added when not preloaded, and the loop continues from the updated state. -/
theorem addPass_cons_inv (env : Env) (fmap : List (String × NVMesh))
    (key refId : String) (rest : List (String × String)) (st st' : RState)
    (evs : List Ev) (m : MeshModel)
    (hm : omapGet st.meshModels refId = some m)
    (h : addPass env fmap ((key, refId) :: rest) st = some (st', evs)) :
    (addCond fmap st key m = false ∧
      addPass env fmap rest st = some (st', evs)) ∨
    (addCond fmap st key m = true ∧
      ∃ mesh cleanup st1 evs1 m2 evs3,
        create_mesh env refId st = some (mesh, cleanup, st1, evs1) ∧
        omapGet st1.meshModels refId = some m2 ∧
        ((m2.path.name ≠ preloaded ∧
          addPass env fmap rest
            { st1 with
              disposer := Disposer.register st1.disposer mesh.id cleanup,
              nvMeshes := st1.nvMeshes ++ [mesh] } = some (st', evs3) ∧
          evs = evs1 ++ [Ev.addMesh mesh.id] ++ evs3) ∨
         (m2.path.name = preloaded ∧
          addPass env fmap rest
            { st1 with
              disposer := Disposer.register st1.disposer mesh.id cleanup } =
            some (st', evs3) ∧
          evs = evs1 ++ evs3))) := by
  simp only [addPass, hm] at h
  cases hc : addCond fmap st key m with
  | false =>
      rw [hc] at h
      simp only [Bool.false_eq_true, if_false] at h
      exact Or.inl ⟨rfl, h⟩
  | true =>
      rw [hc] at h
      simp only [if_true] at h
      refine Or.inr ⟨rfl, ?_⟩
      cases hcr : create_mesh env refId st with
      | none => rw [hcr] at h; exact absurd h (by simp)
      | some out =>
          obtain ⟨mesh, cleanup, st1, evs1⟩ := out
          simp only [hcr] at h
          cases hm2 : omapGet st1.meshModels refId with
          | none =>
              simp only [hm2] at h
              exact absurd h (by simp)
          | some m2 =>
              simp only [hm2] at h
              refine ⟨mesh, cleanup, st1, evs1, m2, ?_⟩
              by_cases hp : m2.path.name = preloaded
              · rw [if_neg (by simpa using hp)] at h
                split at h
                · exact absurd h (by simp)
                · rename_i st4 evs3 heq
                  simp only [Option.some.injEq, Prod.mk.injEq] at h
                  refine ⟨evs3, rfl, hm2, Or.inr ⟨hp, ?_, ?_⟩⟩
                  · rw [← h.1]; exact heq
                  · rw [← h.2]; simp
              · rw [if_pos (by simpa using hp)] at h
                split at h
                · exact absurd h (by simp)
                · rename_i st4 evs3 heq
                  simp only [Option.some.injEq, Prod.mk.injEq] at h
                  refine ⟨evs3, rfl, hm2, Or.inl ⟨hp, ?_, ?_⟩⟩
                  · rw [← h.1]; exact heq
                  · rw [← h.2]; simp [addMeshOp]

theorem addPass_main (env : Env) (st0 : RState) (nbound : Nat)
    (hfront : ∀ mesh ∈ st0.nvMeshes, mesh.id ≠ "")
    (hfreshGood : ∀ k, st0.fresh ≤ k → k < st0.fresh + nbound →
      env.freshId k ≠ "" ∧ ∀ mesh ∈ st0.nvMeshes, env.freshId k ≠ mesh.id) :
    ∀ (rem : List (String × String)) (st : RState),
    (∀ p ∈ rem, ∃ msnap : MeshModel,
      omapGet st.meshModels p.2 = some msnap ∧
      (msnap.id ≠ "" → p.1 = msnap.id)) →
    ((rem.map Prod.snd).Nodup) →
    (∀ i ∈ st.nvMeshes.map NVMesh.id, i ≠ "") →
    (∀ i ∈ st0.nvMeshes.map NVMesh.id, i ∈ st.nvMeshes.map NVMesh.id) →
    (st0.fresh ≤ st.fresh ∧ st.fresh + rem.length ≤ st0.fresh + nbound) →
    ∀ st' evs,
    addPass env
      (buildKeyed (keyedEntries (fun mesh => mesh.id) st0.nvMeshes 0))
      rem st = some (st', evs) →
    AddOut env rem st st' evs := by
  intro rem
  induction rem with
  | nil =>
      intro st _ _ hids hsup hfr st' evs h
      simp only [addPass, Option.some.injEq, Prod.mk.injEq] at h
      obtain ⟨h1, h2⟩ := h
      subst h1
      subst h2
      exact ⟨fun r _ => rfl, hids, fun i hi => hi,
        ⟨le_refl _, by simp⟩, by simp, fun i _ _ => rfl, by simp⟩
  | cons hd rest ih =>
      obtain ⟨key, refId⟩ := hd
      intro st hsnap hvals hids hsup hfr st' evs h
      obtain ⟨msnap, hm, hkeyrel⟩ := hsnap (key, refId) (by simp)
      have hvrest : (rest.map Prod.snd).Nodup :=
        (List.nodup_cons.mp (by simpa using hvals)).2
      have hrefnotin : refId ∉ rest.map Prod.snd :=
        (List.nodup_cons.mp (by simpa using hvals)).1
      rcases addPass_cons_inv env _ key refId rest st st' evs msnap hm h with
        ⟨hc, hrec⟩ |
        ⟨_, mesh, cleanup, st1, evs1, m2, evs3, hcr, hm2', hbr⟩
      · -- condition false: the entry is skipped
        have hout := ih st
          (fun p hp => hsnap p (List.mem_cons_of_mem _ hp))
          hvrest hids hsup
          ⟨hfr.1, le_trans (by simp [Nat.add_le_add_iff_left]) hfr.2⟩
          st' evs hrec
        obtain ⟨o1, o2, o3, o4, o5, o6, o7⟩ := hout
        have hcond : omapHas
            (buildKeyed (keyedEntries (fun mesh => mesh.id) st0.nvMeshes 0))
            key = true ∧ msnap.id ≠ "" := by
          simp only [addCond, Bool.or_eq_false_iff, Bool.not_eq_false'] at hc
          exact ⟨hc.1.1, by
            have := hc.1.2
            simpa using this⟩
        have hkey : key = msnap.id := hkeyrel hcond.2
        refine ⟨?_, o2, o3, ⟨o4.1, le_trans o4.2 (by simp)⟩, ?_, ?_, o7⟩
        · intro r hr
          exact o1 r (fun p hp => hr p (List.mem_cons_of_mem _ hp))
        · intro p hp
          rcases List.mem_cons.mp hp with hp' | hp'
          · subst hp'
            have hmid : modelId st' refId = msnap.id := by
              rw [modelId, o1 refId (fun q hq hq2 => hrefnotin
                (hq2 ▸ List.mem_map.mpr ⟨q, hq, rfl⟩)), hm]
              rfl
            refine ⟨by rw [hmid]; exact hcond.2, ?_, Or.inl (by
              rw [hmid, hkey])⟩
            rw [hmid]
            have hmemfront := fmap_key_mem st0 hfront key hcond.1
            rw [hkey] at hmemfront
            exact o3 _ (hsup _ hmemfront)
          · exact o5 p hp'
        · intro i hi hj
          exact o6 i (fun p hp => hi p (List.mem_cons_of_mem _ hp)) hj
      · -- condition true: the entry was created or adopted
        obtain ⟨m', hm', hreg, hml, hdisp, hL, hmap, hbranch⟩ :=
          create_mesh_some_facts env refId st mesh cleanup st1 evs1 hcr
        have hmm : m' = msnap := by
          rw [hm] at hm'
          exact (Option.some.injEq _ _ ▸ hm').symm
        rw [hmm] at hreg hbranch
        have hm2 : m2 =
            { msnap with
              id := mesh.id
              name := mesh.name
              unsaved := false } := by
          rw [hreg, omapGet_set_self] at hm2'
          exact (Option.some.injEq _ _ ▸ hm2').symm
        have hm2path : m2.path = msnap.path := by rw [hm2]
        -- shared registry facts about the continuation state
        have hsnap3 : ∀ st3 : RState, st3.meshModels = st1.meshModels →
            ∀ p ∈ rest, ∃ ms3 : MeshModel,
              omapGet st3.meshModels p.2 = some ms3 ∧
              (ms3.id ≠ "" → p.1 = ms3.id) := by
          intro st3 h3 p hp
          obtain ⟨mp, hmp, hkp⟩ := hsnap p (List.mem_cons_of_mem _ hp)
          refine ⟨mp, ?_, hkp⟩
          rw [h3, hreg, omapGet_set_ne]
          · exact hmp
          · intro hq
            exact hrefnotin (hq ▸ List.mem_map.mpr ⟨p, hp, rfl⟩)
        rcases hbr with ⟨hpne, har, hevs⟩ | ⟨hpeq, har, hevs⟩
        · -- non-preloaded: a fresh mesh was decoded and added
          have hpne' : msnap.path.name ≠ preloaded := by
            rw [← hm2path]; exact hpne
          rw [if_neg hpne'] at hbranch
          obtain ⟨hfresh1, hmid, hevs1⟩ := hbranch
          have hltn : st.fresh < st0.fresh + nbound := by
            have := hfr.2
            simp only [List.length_cons] at this
            omega
          obtain ⟨hfne, hfnm⟩ := hfreshGood st.fresh hfr.1 hltn
          have hmeshne : mesh.id ≠ "" := by rw [hmid]; exact hfne
          have hmap3 : ∀ st3 : RState,
              st3.nvMeshes = st1.nvMeshes ++ [mesh] →
              st3.nvMeshes.map NVMesh.id =
                st.nvMeshes.map NVMesh.id ++ [mesh.id] := by
            intro st3 h3
            rw [h3, List.map_append, hmap]
            rfl
          have hout := ih
            { st1 with
              disposer := Disposer.register st1.disposer mesh.id cleanup
              nvMeshes := st1.nvMeshes ++ [mesh] }
            (hsnap3 _ rfl) hvrest
            (by
              intro i hi
              rw [hmap3 _ rfl] at hi
              rcases List.mem_append.mp hi with hi' | hi'
              · exact hids i hi'
              · rw [List.mem_singleton.mp hi']
                exact hmeshne)
            (by
              intro i hi
              rw [hmap3 _ rfl]
              exact List.mem_append.mpr (Or.inl (hsup i hi)))
            (by
              constructor
              · show st0.fresh ≤ st1.fresh
                rw [hfresh1]
                omega
              · show st1.fresh + rest.length ≤ st0.fresh + nbound
                rw [hfresh1]
                have := hfr.2
                simp only [List.length_cons] at this
                omega)
            st' evs3 har
          obtain ⟨o1, o2, o3, o4, o5, o6, o7⟩ := hout
          have o41 : st1.fresh ≤ st'.fresh := o4.1
          have o42 : st'.fresh ≤ st1.fresh + rest.length := o4.2
          have hfr3 : st1.fresh = st.fresh + 1 := hfresh1
          have hregget : modelId st' refId = mesh.id := by
            rw [modelId, o1 refId (fun q hq hq2 => hrefnotin
              (hq2 ▸ List.mem_map.mpr ⟨q, hq, rfl⟩))]
            show ((omapGet ({ st1 with
              disposer := Disposer.register st1.disposer mesh.id cleanup,
              nvMeshes := st1.nvMeshes ++ [mesh] } : RState).meshModels
              refId).map MeshModel.id).getD "" = mesh.id
            rw [show ({ st1 with
              disposer := Disposer.register st1.disposer mesh.id cleanup,
              nvMeshes := st1.nvMeshes ++ [mesh] } : RState).meshModels =
              st1.meshModels from rfl, hm2']
            rw [hm2]
            rfl
          refine ⟨?_, o2, ?_, ?_, ?_, ?_, ?_⟩
          · intro r hr
            rw [o1 r (fun p hp => hr p (List.mem_cons_of_mem _ hp))]
            show omapGet st1.meshModels r = omapGet st.meshModels r
            rw [hreg, omapGet_set_ne]
            intro hq
            exact hr (key, refId) (by simp) (by rw [hq])
          · intro i hi
            refine o3 i ?_
            rw [hmap3 _ rfl]
            exact List.mem_append.mpr (Or.inl hi)
          · constructor
            · calc st.fresh ≤ st1.fresh := by omega
                _ ≤ st'.fresh := o41
            · simp only [List.length_cons]
              omega
          · intro p hp
            rcases List.mem_cons.mp hp with hp' | hp'
            · subst hp'
              refine ⟨by rw [hregget]; exact hmeshne, ?_, ?_⟩
              · rw [hregget]
                refine o3 _ ?_
                rw [hmap3 _ rfl]
                exact List.mem_append.mpr (Or.inr (by simp))
              · refine Or.inr ⟨st.fresh, le_refl _, ?_, by
                  rw [hregget, hmid]⟩
                calc st.fresh < st1.fresh := by omega
                  _ ≤ st'.fresh := o41
            · obtain ⟨q1, q2, q3⟩ := o5 p hp'
              refine ⟨q1, q2, ?_⟩
              rcases q3 with q3 | ⟨j, hj1, hj2, hj3⟩
              · exact Or.inl q3
              · have hj1' : st1.fresh ≤ j := hj1
                exact Or.inr ⟨j, by omega, hj2, hj3⟩
          · intro i hi hj
            have hine : i ≠ mesh.id := by
              rw [hmid]
              refine hj st.fresh (le_refl _) ?_
              calc st.fresh < st1.fresh := by omega
                _ ≤ st'.fresh := o41
            rw [o6 i ?_ ?_]
            · show omapGet (Disposer.register st1.disposer mesh.id
                cleanup) i = omapGet st.disposer i
              rw [Disposer.register, omapGet_set_ne _ _ _ _
                (fun hq => hine hq.symm), hdisp]
            · intro p hp mp hmp
              refine hi p (List.mem_cons_of_mem _ hp) mp ?_
              rw [show ({ st1 with
                disposer := Disposer.register st1.disposer mesh.id cleanup,
                nvMeshes := st1.nvMeshes ++ [mesh] } : RState).meshModels =
                st1.meshModels from rfl, hreg, omapGet_set_ne] at hmp
              · exact hmp
              · intro hq
                exact hrefnotin (hq ▸ List.mem_map.mpr ⟨p, hp, rfl⟩)
            · intro j hj1 hj2
              have hj1' : st1.fresh ≤ j := hj1
              refine hj j ?_ hj2
              omega
          · intro ev hev
            rw [hevs] at hev
            rcases List.mem_append.mp hev with hev | hev
            · rcases List.mem_append.mp hev with hev | hev
              · rcases hevs1 ev hev with h' | h' | h'
                · rw [h']; exact ⟨rfl, rfl⟩
                · obtain ⟨s, h'⟩ := h'
                  rw [h']; exact ⟨rfl, rfl⟩
                · rw [h']; exact ⟨rfl, rfl⟩
              · rw [List.mem_singleton.mp hev]
                exact ⟨rfl, rfl⟩
            · exact o7 ev hev
        · -- preloaded: the existing entity was adopted, no renderer add
          have hpeq' : msnap.path.name = preloaded := by
            rw [← hm2path]; exact hpeq
          rw [if_pos hpeq'] at hbranch
          obtain ⟨hfresh1, hmid, hmemfront, hevs1⟩ := hbranch
          have hmeshne : mesh.id ≠ "" := hids _ hmemfront
          have hout := ih
            { st1 with
              disposer := Disposer.register st1.disposer mesh.id cleanup }
            (hsnap3 _ rfl) hvrest
            (by
              intro i hi
              rw [show ({ st1 with
                disposer := Disposer.register st1.disposer mesh.id
                  cleanup } : RState).nvMeshes = st1.nvMeshes from rfl,
                hmap] at hi
              exact hids i hi)
            (by
              intro i hi
              rw [show ({ st1 with
                disposer := Disposer.register st1.disposer mesh.id
                  cleanup } : RState).nvMeshes = st1.nvMeshes from rfl,
                hmap]
              exact hsup i hi)
            (by
              constructor
              · show st0.fresh ≤ st1.fresh
                rw [hfresh1]
                exact hfr.1
              · show st1.fresh + rest.length ≤ st0.fresh + nbound
                rw [hfresh1]
                have := hfr.2
                simp only [List.length_cons] at this
                omega)
            st' evs3 har
          obtain ⟨o1, o2, o3, o4, o5, o6, o7⟩ := hout
          have o41 : st1.fresh ≤ st'.fresh := o4.1
          have o42 : st'.fresh ≤ st1.fresh + rest.length := o4.2
          have hregget : modelId st' refId = mesh.id := by
            rw [modelId, o1 refId (fun q hq hq2 => hrefnotin
              (hq2 ▸ List.mem_map.mpr ⟨q, hq, rfl⟩))]
            show ((omapGet ({ st1 with
              disposer := Disposer.register st1.disposer mesh.id
                cleanup } : RState).meshModels refId).map
              MeshModel.id).getD "" = mesh.id
            rw [show ({ st1 with
              disposer := Disposer.register st1.disposer mesh.id
                cleanup } : RState).meshModels = st1.meshModels from rfl,
              hm2']
            rw [hm2]
            rfl
          refine ⟨?_, o2, ?_, ?_, ?_, ?_, ?_⟩
          · intro r hr
            rw [o1 r (fun p hp => hr p (List.mem_cons_of_mem _ hp))]
            show omapGet st1.meshModels r = omapGet st.meshModels r
            rw [hreg, omapGet_set_ne]
            intro hq
            exact hr (key, refId) (by simp) (by rw [hq])
          · intro i hi
            refine o3 i ?_
            show i ∈ ({ st1 with
              disposer := Disposer.register st1.disposer mesh.id
                cleanup } : RState).nvMeshes.map NVMesh.id
            rw [show ({ st1 with
              disposer := Disposer.register st1.disposer mesh.id
                cleanup } : RState).nvMeshes = st1.nvMeshes from rfl, hmap]
            exact hi
          · constructor
            · calc st.fresh = st1.fresh := hfresh1.symm
                _ ≤ st'.fresh := o41
            · simp only [List.length_cons]
              omega
          · intro p hp
            rcases List.mem_cons.mp hp with hp' | hp'
            · subst hp'
              refine ⟨by rw [hregget]; exact hmeshne, ?_, ?_⟩
              · rw [hregget]
                refine o3 _ ?_
                show mesh.id ∈ ({ st1 with
                  disposer := Disposer.register st1.disposer mesh.id
                    cleanup } : RState).nvMeshes.map NVMesh.id
                rw [show ({ st1 with
                  disposer := Disposer.register st1.disposer mesh.id
                    cleanup } : RState).nvMeshes = st1.nvMeshes from rfl,
                  hmap]
                exact hmemfront
              · refine Or.inl ?_
                rw [hregget, hmid]
                exact (hkeyrel (by rw [← hmid]; exact hmeshne)).symm
            · obtain ⟨q1, q2, q3⟩ := o5 p hp'
              refine ⟨q1, q2, ?_⟩
              rcases q3 with q3 | ⟨j, hj1, hj2, hj3⟩
              · exact Or.inl q3
              · refine Or.inr ⟨j, ?_, hj2, hj3⟩
                calc st.fresh = st1.fresh := hfresh1.symm
                  _ ≤ j := hj1
          · intro i hi hj
            have hine : i ≠ mesh.id := by
              rw [hmid]
              exact hi (key, refId) (by simp) msnap hm
            rw [o6 i ?_ ?_]
            · show omapGet (Disposer.register st1.disposer mesh.id
                cleanup) i = omapGet st.disposer i
              rw [Disposer.register, omapGet_set_ne _ _ _ _
                (fun hq => hine hq.symm), hdisp]
            · intro p hp mp hmp
              refine hi p (List.mem_cons_of_mem _ hp) mp ?_
              rw [show ({ st1 with
                disposer := Disposer.register st1.disposer mesh.id
                  cleanup } : RState).meshModels = st1.meshModels from rfl,
                hreg, omapGet_set_ne] at hmp
              · exact hmp
              · intro hq
                exact hrefnotin (hq ▸ List.mem_map.mpr ⟨p, hp, rfl⟩)
            · intro j hj1 hj2
              refine hj j ?_ hj2
              calc st.fresh = st1.fresh := hfresh1.symm
                _ ≤ j := hj1
          · intro ev hev
            rw [hevs] at hev
            rcases List.mem_append.mp hev with hev | hev
            · rcases hevs1 ev hev with h' | h'
              · obtain ⟨s, h'⟩ := h'
                rw [h']; exact ⟨rfl, rfl⟩
              · rw [h']; exact ⟨rfl, rfl⟩
            · exact o7 ev hev

/-- The creation pass never touches the `_meshes` reference list. -/
theorem addPass_meshesList (env : Env) (fmap : List (String × NVMesh)) :
    ∀ (rem : List (String × String)) (st st' : RState) (evs : List Ev),
    addPass env fmap rem st = some (st', evs) →
    st'.meshesList = st.meshesList := by
  intro rem
  induction rem with
  | nil =>
      intro st st' evs h
      simp only [addPass, Option.some.injEq, Prod.mk.injEq] at h
      rw [← h.1]
  | cons hd rest ih =>
      obtain ⟨key, refId⟩ := hd
      intro st st' evs h
      cases hm : omapGet st.meshModels refId with
      | none =>
          simp only [addPass, hm] at h
          exact absurd h (by simp)
      | some m =>
          rcases addPass_cons_inv env fmap key refId rest st st' evs m hm h
            with ⟨_, hrec⟩ |
              ⟨_, mesh, cleanup, st1, evs1, m2, evs3, hcr, _, hbr⟩
          · exact ih st st' evs hrec
          · obtain ⟨_, _, _, hml, _, _, _, _⟩ :=
              create_mesh_some_facts env refId st mesh cleanup st1 evs1 hcr
            rcases hbr with ⟨_, har, _⟩ | ⟨_, har, _⟩
            · rw [ih _ st' evs3 har]
              exact hml
            · rw [ih _ st' evs3 har]
              exact hml

/-- The removal pass leaves the registry, the reference list, the uuid
counter and the listener-free parts of the state untouched. -/
theorem removePass_frames (bmap : List (String × String)) :
    ∀ (fentries : List (String × NVMesh)) (st : RState),
    (removePass bmap fentries st).1.meshModels = st.meshModels ∧
    (removePass bmap fentries st).1.meshesList = st.meshesList ∧
    (removePass bmap fentries st).1.fresh = st.fresh := by
  intro fentries
  induction fentries with
  | nil => intro st; exact ⟨rfl, rfl, rfl⟩
  | cons hd rest ih =>
      obtain ⟨key, mesh⟩ := hd
      intro st
      cases hk : omapHas bmap key with
      | true =>
          simp only [removePass, hk, Bool.not_true, Bool.false_eq_true,
            if_false]
          exact ih st
      | false =>
          simp only [removePass, hk, Bool.not_false, if_true]
          have hdp : ∀ st2 : RState,
              (disposeOp st2 mesh.id).1.meshModels = st2.meshModels ∧
              (disposeOp st2 mesh.id).1.meshesList = st2.meshesList ∧
              (disposeOp st2 mesh.id).1.fresh = st2.fresh := by
            intro st2
            rw [disposeOp]
            cases omapGet st2.disposer mesh.id with
            | none => exact ⟨rfl, rfl, rfl⟩
            | some c => exact ⟨rfl, rfl, rfl⟩
          obtain ⟨i1, i2, i3⟩ :=
            ih (disposeOp (removeMeshOp st mesh).1 mesh.id).1
          obtain ⟨d1, d2, d3⟩ := hdp (removeMeshOp st mesh).1
          refine ⟨?_, ?_, ?_⟩
          · rw [i1, d1]; rfl
          · rw [i2, d2]; rfl
          · rw [i3, d3]; rfl

/-- An id different from every removed entity's id survives the removal
pass. -/
theorem removePass_keep (bmap : List (String × String)) (X : String) :
    ∀ (fentries : List (String × NVMesh)) (st : RState),
    (∀ p ∈ fentries, omapHas bmap p.1 = false → p.2.id ≠ X) →
    X ∈ st.nvMeshes.map NVMesh.id →
    X ∈ (removePass bmap fentries st).1.nvMeshes.map NVMesh.id := by
  intro fentries
  induction fentries with
  | nil => intro st _ hX; exact hX
  | cons hd rest ih =>
      obtain ⟨key, mesh⟩ := hd
      intro st hne hX
      cases hk : omapHas bmap key with
      | true =>
          simp only [removePass, hk, Bool.not_true, Bool.false_eq_true,
            if_false]
          exact ih st (fun p hp => hne p (List.mem_cons_of_mem _ hp)) hX
      | false =>
          simp only [removePass, hk, Bool.not_false, if_true]
          have hmesh : mesh.id ≠ X := hne (key, mesh) (by simp) hk
          refine ih _ (fun p hp => hne p (List.mem_cons_of_mem _ hp)) ?_
          have hXrm : X ∈ (removeMeshOp st mesh).1.nvMeshes.map NVMesh.id := by
            obtain ⟨a, ha, hida⟩ := List.mem_map.mp hX
            refine List.mem_map.mpr ⟨a, ?_, hida⟩
            show a ∈ st.nvMeshes.filter (fun mm => mm.id ≠ mesh.id)
            refine List.mem_filter.mpr ⟨ha, ?_⟩
            simp only [decide_eq_true_eq]
            intro hq
            exact hmesh (by rw [← hq, hida])
          rw [disposeOp]
          cases omapGet (removeMeshOp st mesh).1.disposer mesh.id with
          | none => exact hXrm
          | some c => exact hXrm

/-- Removal steps over entries whose key differs from X contribute no
remove or dispose event for X, and leave X's Disposer entry alone. -/
theorem removePass_events_other (bmap : List (String × String)) (X : String) :
    ∀ (fentries : List (String × NVMesh)) (st : RState),
    (∀ p ∈ fentries, p.2.id = p.1) →
    (∀ p ∈ fentries, p.1 ≠ X) →
    (removePass bmap fentries st).2.countP (Ev.isRemoveMeshFor X) = 0 ∧
    (removePass bmap fentries st).2.filter (Ev.isDisposeRunFor X) = [] := by
  intro fentries
  induction fentries with
  | nil => intro st _ _; exact ⟨rfl, rfl⟩
  | cons hd rest ih =>
      obtain ⟨key, mesh⟩ := hd
      intro st hid hne
      have hkX : key ≠ X := hne (key, mesh) (by simp)
      have hmid : mesh.id = key := hid (key, mesh) (by simp)
      cases hk : omapHas bmap key with
      | true =>
          simp only [removePass, hk, Bool.not_true, Bool.false_eq_true,
            if_false]
          exact ih st (fun p hp => hid p (List.mem_cons_of_mem _ hp))
            (fun p hp => hne p (List.mem_cons_of_mem _ hp))
      | false =>
          simp only [removePass, hk, Bool.not_false, if_true]
          obtain ⟨c1, c2⟩ := ih (disposeOp (removeMeshOp st mesh).1 mesh.id).1
            (fun p hp => hid p (List.mem_cons_of_mem _ hp))
            (fun p hp => hne p (List.mem_cons_of_mem _ hp))
          have hrm : (removeMeshOp st mesh).2.countP
              (Ev.isRemoveMeshFor X) = 0 ∧
              (removeMeshOp st mesh).2.filter (Ev.isDisposeRunFor X) = [] := by
            constructor
            · simp [removeMeshOp, Ev.isRemoveMeshFor, hmid, hkX]
            · simp [removeMeshOp, Ev.isDisposeRunFor]
          have hdpe : (disposeOp (removeMeshOp st mesh).1 mesh.id).2.countP
              (Ev.isRemoveMeshFor X) = 0 ∧
              (disposeOp (removeMeshOp st mesh).1 mesh.id).2.filter
                (Ev.isDisposeRunFor X) = [] := by
            rw [disposeOp]
            cases omapGet (removeMeshOp st mesh).1.disposer mesh.id with
            | none => exact ⟨rfl, rfl⟩
            | some c =>
                constructor
                · simp [Ev.isRemoveMeshFor]
                · simp [Ev.isDisposeRunFor, hmid, hkX]
          constructor
          · rw [List.countP_append, List.countP_append, hrm.1, hdpe.1, c1]
          · rw [List.filter_append, List.filter_append, hrm.2, hdpe.2, c2]
            simp

/-- For an id X live on the renderer but absent from the backend map, the
removal pass emits exactly one renderer removal of X and exactly one
Disposer invocation for X, and that invocation runs the teardown that was
registered for X. -/
theorem removePass_events_for (bmap : List (String × String)) (X : String)
    (D : List Listener) :
    ∀ (fentries : List (String × NVMesh)) (st : RState),
    (∀ p ∈ fentries, p.2.id = p.1) →
    ((fentries.map Prod.fst).Nodup) →
    (∃ meshX : NVMesh, (X, meshX) ∈ fentries) →
    omapHas bmap X = false →
    omapGet st.disposer X = some D →
    (removePass bmap fentries st).2.countP (Ev.isRemoveMeshFor X) = 1 ∧
    (removePass bmap fentries st).2.filter (Ev.isDisposeRunFor X) =
      [Ev.disposeRun X D] := by
  intro fentries
  induction fentries with
  | nil =>
      intro st _ _ hmem _ _
      obtain ⟨mx, hmx⟩ := hmem
      simp at hmx
  | cons hd rest ih =>
      obtain ⟨key, mesh⟩ := hd
      intro st hid hnodup hmem hnoback hdisp
      have hmid : mesh.id = key := hid (key, mesh) (by simp)
      by_cases hkX : key = X
      · -- this entry is X itself
        subst hkX
        simp only [removePass, hnoback, Bool.not_false, if_true]
        have hrest : ∀ p ∈ rest, p.1 ≠ key := by
          intro p hp hq
          have hn := hnodup
          rw [List.map_cons] at hn
          exact (List.nodup_cons.mp hn).1
            (hq ▸ List.mem_map.mpr ⟨p, hp, rfl⟩)
        obtain ⟨c1, c2⟩ := removePass_events_other bmap key rest
          (disposeOp (removeMeshOp st mesh).1 mesh.id).1
          (fun p hp => hid p (List.mem_cons_of_mem _ hp)) hrest
        have hdget : omapGet (removeMeshOp st mesh).1.disposer mesh.id =
            some D := by
          show omapGet st.disposer mesh.id = some D
          rw [hmid]
          exact hdisp
        constructor
        · rw [List.countP_append, List.countP_append, c1]
          rw [disposeOp, hdget]
          simp [removeMeshOp, Ev.isRemoveMeshFor, Ev.isDisposeRunFor, hmid]
        · rw [List.filter_append, List.filter_append, c2]
          rw [disposeOp, hdget]
          simp [removeMeshOp, Ev.isRemoveMeshFor, Ev.isDisposeRunFor, hmid]
      · -- a different entry; X sits in the tail
        have hmem' : ∃ meshX : NVMesh, (X, meshX) ∈ rest := by
          obtain ⟨mx, hmx⟩ := hmem
          rcases List.mem_cons.mp hmx with h' | h'
          · exact absurd (congrArg Prod.fst h').symm hkX
          · exact ⟨mx, h'⟩
        have hnodup' : (rest.map Prod.fst).Nodup := by
          have hn := hnodup
          rw [List.map_cons] at hn
          exact (List.nodup_cons.mp hn).2
        have hid' : ∀ p ∈ rest, p.2.id = p.1 :=
          fun p hp => hid p (List.mem_cons_of_mem _ hp)
        cases hk : omapHas bmap key with
        | true =>
            simp only [removePass, hk, Bool.not_true, Bool.false_eq_true,
              if_false]
            exact ih st hid' hnodup' hmem' hnoback hdisp
        | false =>
            simp only [removePass, hk, Bool.not_false, if_true]
            have hdget : omapGet
                (disposeOp (removeMeshOp st mesh).1 mesh.id).1.disposer X =
                some D := by
              rw [disposeOp]
              cases hgd : omapGet (removeMeshOp st mesh).1.disposer
                  mesh.id with
              | none =>
                  show omapGet st.disposer X = some D
                  exact hdisp
              | some c =>
                  show omapGet (omapDel st.disposer mesh.id) X = some D
                  rw [omapGet_del_ne]
                  · exact hdisp
                  · rw [hmid]; exact hkX
            obtain ⟨c1, c2⟩ := ih (disposeOp (removeMeshOp st mesh).1
              mesh.id).1 hid' hnodup' hmem' hnoback hdget
            have hrm0 : (removeMeshOp st mesh).2.countP
                (Ev.isRemoveMeshFor X) = 0 := by
              simp [removeMeshOp, Ev.isRemoveMeshFor, hmid, hkX]
            have hrm0' : (removeMeshOp st mesh).2.filter
                (Ev.isDisposeRunFor X) = [] := by
              simp [removeMeshOp, Ev.isDisposeRunFor]
            have hdp0 : (disposeOp (removeMeshOp st mesh).1 mesh.id).2.countP
                (Ev.isRemoveMeshFor X) = 0 ∧
                (disposeOp (removeMeshOp st mesh).1 mesh.id).2.filter
                  (Ev.isDisposeRunFor X) = [] := by
              rw [disposeOp]
              cases omapGet (removeMeshOp st mesh).1.disposer mesh.id with
              | none => exact ⟨rfl, rfl⟩
              | some c =>
                  constructor
                  · simp [Ev.isRemoveMeshFor]
                  · simp [Ev.isDisposeRunFor, hmid, hkX]
            constructor
            · rw [List.countP_append, List.countP_append, hrm0, hdp0.1, c1]
            · rw [List.filter_append, List.filter_append, hrm0', hdp0.2, c2]
              simp

/-- If every frontend key is present in the backend map, the removal pass
is a no-op: no state change, no events. -/
theorem removePass_noop (bmap : List (String × String)) :
    ∀ (fentries : List (String × NVMesh)) (st : RState),
    (∀ p ∈ fentries, omapHas bmap p.1 = true) →
    removePass bmap fentries st = (st, []) := by
  intro fentries
  induction fentries with
  | nil => intro st _; rfl
  | cons hd rest ih =>
      obtain ⟨key, mesh⟩ := hd
      intro st hall
      have hk : omapHas bmap key = true := hall (key, mesh) (by simp)
      simp only [removePass, hk, Bool.not_true, Bool.false_eq_true, if_false]
      exact ih st (fun p hp => hall p (List.mem_cons_of_mem _ hp))

theorem find_id_of_mem (l : List NVMesh) (i : String)
    (h : i ∈ l.map NVMesh.id) :
    ∃ mesh, l.find? (fun mesh => mesh.id = i) = some mesh ∧ mesh.id = i := by
  induction l with
  | nil => simp at h
  | cons a rest ih =>
      by_cases ha : a.id = i
      · exact ⟨a, by simp [List.find?, ha], ha⟩
      · have h' : i ∈ rest.map NVMesh.id := by
          rw [List.map_cons] at h
          rcases List.mem_cons.mp h with h'' | h''
          · exact absurd h''.symm ha
          · exact h''
        obtain ⟨mesh, hm, hid⟩ := ih h'
        exact ⟨mesh, by simp [List.find?, ha, hm], hid⟩

/-- The reorder pass (`new_meshes_order`) reproduces exactly the backend id
sequence whenever every backend descriptor's id has a live entity. -/
theorem reorderList_map_id (st : RState) :
    ∀ refs : List String,
    (∀ r ∈ refs, ∃ m : MeshModel, omapGet st.meshModels r = some m ∧
      m.id ∈ st.nvMeshes.map NVMesh.id) →
    (reorderList st refs).map NVMesh.id =
      refs.map (fun r => modelId st r) := by
  intro refs
  induction refs with
  | nil => intro _; rfl
  | cons r rest ih =>
      intro hall
      obtain ⟨m, hm, hmem⟩ := hall r (by simp)
      obtain ⟨mesh, hfind, hid⟩ := find_id_of_mem st.nvMeshes m.id hmem
      simp only [reorderList, hm, hfind, List.map_cons]
      rw [ih (fun r' hr' => hall r' (List.mem_cons_of_mem _ hr'))]
      congr 1
      rw [hid, modelId, hm]
      rfl

/-- When every id of a renderer array is nonempty, the frontend map keys
are exactly the array's ids. -/
theorem frontKeys_eq (l : List NVMesh)
    (h : ∀ i ∈ l.map NVMesh.id, i ≠ "") :
    ∀ n : Nat, (keyedEntries (fun mesh => mesh.id) l n).map Prod.fst =
      l.map NVMesh.id := by
  induction l with
  | nil => intro n; rfl
  | cons a rest ih =>
      intro n
      have ha : a.id ≠ "" := h a.id (by simp)
      simp only [keyedEntries, List.map_cons, jsKey, if_neg ha]
      rw [ih (fun i hi => h i (by simp [hi]))]

/-- A creation pass over entries that are all already present (nonempty id
matching their key, key live on the frontend map) constructs no entity and
adds none: every event is a layer decode or a save, never a mesh decode,
an add, a removal or a dispose. -/
theorem addPass_noop_events (env : Env) (fmap : List (String × NVMesh)) :
    ∀ (rem : List (String × String)) (st st' : RState) (evs : List Ev),
    (∀ p ∈ rem, ∃ m : MeshModel, omapGet st.meshModels p.2 = some m ∧
      m.id = p.1 ∧ m.id ≠ "" ∧ omapHas fmap p.1 = true) →
    addPass env fmap rem st = some (st', evs) →
    ∀ ev ∈ evs, ev.isDecodeMesh = false ∧ ev.isAddMesh = false ∧
      ev.isRemoveMesh = false ∧ ev.isDisposeRun = false := by
  intro rem
  induction rem with
  | nil =>
      intro st st' evs _ h
      simp only [addPass, Option.some.injEq, Prod.mk.injEq] at h
      rw [← h.2]
      simp
  | cons hd rest ih =>
      obtain ⟨key, refId⟩ := hd
      intro st st' evs hall h
      obtain ⟨m, hm, hkey, hidne, hhas⟩ := hall (key, refId) (by simp)
      rcases addPass_cons_inv env fmap key refId rest st st' evs m hm h with
        ⟨_, hrec⟩ |
        ⟨hc, mesh, cleanup, st1, evs1, m2, evs3, hcr, hm2', hbr⟩
      · exact ih st st' evs
          (fun p hp => hall p (List.mem_cons_of_mem _ hp)) hrec
      · -- the entry can only fire the defensive preloaded re-adoption
        have hpath : m.path.name = preloaded := by
          simp only [addCond, hhas, hkey.symm ▸ hhas, Bool.not_true,
            Bool.false_or] at hc
          rcases Bool.or_eq_true_iff.mp hc with hc' | hc'
          · exact absurd (by exact of_decide_eq_true hc') hidne
          · rw [Bool.and_eq_true] at hc'
            exact of_decide_eq_true hc'.1
        obtain ⟨m', hm', hreg, hml, hdisp, hL, hmap, hbranch⟩ :=
          create_mesh_some_facts env refId st mesh cleanup st1 evs1 hcr
        have hmm : m' = m := by
          rw [hm] at hm'
          exact (Option.some.injEq _ _ ▸ hm').symm
        rw [hmm] at hreg hbranch
        rw [if_pos hpath] at hbranch
        obtain ⟨hfresh1, hmid, hmemfront, hevs1⟩ := hbranch
        have hm2 : m2 =
            { m with
              id := mesh.id
              name := mesh.name
              unsaved := false } := by
          rw [hreg, omapGet_set_self] at hm2'
          exact (Option.some.injEq _ _ ▸ hm2').symm
        rcases hbr with ⟨hpne, _, _⟩ | ⟨_, har, hevs⟩
        · exact absurd (by rw [hm2]; exact hpath) hpne
        · have hrest : ∀ p ∈ rest, ∃ mr : MeshModel,
              omapGet st1.meshModels p.2 = some mr ∧
              mr.id = p.1 ∧ mr.id ≠ "" ∧ omapHas fmap p.1 = true := by
            intro p hp
            obtain ⟨mp, hmp, hkp, hnep, hhp⟩ :=
              hall p (List.mem_cons_of_mem _ hp)
            by_cases hpr : p.2 = refId
            · rw [hpr] at hmp
              rw [hm] at hmp
              have hmpm : mp = m := (Option.some.injEq _ _ ▸ hmp).symm
              refine ⟨{ m with
                  id := mesh.id
                  name := mesh.name
                  unsaved := false }, ?_, ?_, ?_, ?_⟩
              · rw [hpr, hreg, omapGet_set_self]
              · show mesh.id = p.1
                rw [hmid, ← hkp, hmpm]
              · show mesh.id ≠ ""
                rw [hmid, ← hmpm]
                exact hnep
              · exact hhp
            · refine ⟨mp, ?_, hkp, hnep, hhp⟩
              rw [hreg, omapGet_set_ne _ _ _ _ (fun hq => hpr hq.symm)]
              exact hmp
          intro ev hev
          rw [hevs] at hev
          rcases List.mem_append.mp hev with hev | hev
          · rcases hevs1 ev hev with ⟨s, h'⟩ | h'
            · rw [h']; exact ⟨rfl, rfl, rfl, rfl⟩
            · rw [h']; exact ⟨rfl, rfl, rfl, rfl⟩
          · exact ih
              { st1 with
                disposer := Disposer.register st1.disposer mesh.id cleanup }
              st' evs3 hrest har ev hev

/-- Structural inversion of a completed `render_meshes` pass: the gathered
models, the creation-pass output, and how the final state and events are
assembled from the three passes. -/
theorem render_meshes_inv (env : Env) (st stF : RState) (evs : List Ev)
    (hkeys : (backendKeys st).Nodup)
    (h : render_meshes env st = some (stF, evs)) :
    ∃ ms stA evs1,
      gather_models st.meshModels st.meshesList = some ms ∧
      ms = backendSnap st ∧
      addPass env (fmapOf st) (bmapOf ms) st = some (stA, evs1) ∧
      evs = evs1 ++ (removePass (bmapOf ms) (fmapOf st) stA).2 ∧
      stF = reorderPass (removePass (bmapOf ms) (fmapOf st) stA).1 := by
  rw [render_meshes] at h
  cases hg : gather_models st.meshModels st.meshesList with
  | none => rw [hg] at h; exact absurd h (by simp)
  | some ms =>
      simp only [hg] at h
      have hsnap : ms = backendSnap st := by
        rw [backendSnap, hg]
        rfl
      have hkeysraw : (((keyedEntries
          (fun rm : String × MeshModel => rm.2.id) ms 0).map
          (fun p => (p.1, p.2.1))).map Prod.fst).Nodup := by
        rw [List.map_map]
        have : (Prod.fst ∘ fun p : String × (String × MeshModel) =>
            (p.1, p.2.1)) = Prod.fst := rfl
        rw [this]
        rw [backendKeys, ← hsnap] at hkeys
        exact hkeys
      have hbk := buildKeyed_of_nodup _ hkeysraw
      rw [hbk] at h
      cases ha : addPass env
          (buildKeyed (keyedEntries (fun mesh => mesh.id) st.nvMeshes 0))
          ((keyedEntries (fun rm : String × MeshModel => rm.2.id) ms 0).map
            (fun p => (p.1, p.2.1))) st with
      | none => rw [ha] at h; exact absurd h (by simp)
      | some q =>
          obtain ⟨stA, evs1⟩ := q
          rw [ha] at h
          simp only [Option.some.injEq, Prod.mk.injEq] at h
          exact ⟨ms, stA, evs1, rfl, hsnap, ha, h.2.symm, h.1.symm⟩

theorem bmapOf_values (ms : List (String × MeshModel)) :
    (bmapOf ms).map Prod.snd = ms.map Prod.fst := by
  rw [bmapOf, List.map_map]
  have h1 : ((keyedEntries (fun rm : String × MeshModel => rm.2.id) ms
      0).map (fun p => p.2.1)) =
      ((keyedEntries (fun rm : String × MeshModel => rm.2.id) ms 0).map
        Prod.snd).map Prod.fst := by
    rw [List.map_map]
    rfl
  have h2 : (Prod.snd ∘ fun p : String × (String × MeshModel) =>
      (p.1, p.2.1)) = fun p => p.2.1 := rfl
  rw [h2, h1, keyedEntries_map_snd]

theorem bmapOf_length (ms : List (String × MeshModel)) :
    (bmapOf ms).length = ms.length := by
  rw [bmapOf, List.length_map, keyedEntries_length]

theorem bmapOf_keys (ms : List (String × MeshModel)) :
    (bmapOf ms).map Prod.fst =
      (keyedEntries (fun rm : String × MeshModel => rm.2.id) ms 0).map
        Prod.fst := by
  rw [bmapOf, List.map_map]
  rfl

theorem bmapOf_entry (ms : List (String × MeshModel)) (p : String × String)
    (h : p ∈ bmapOf ms) :
    ∃ a : String × MeshModel, a ∈ ms ∧ a.1 = p.2 ∧
      (∃ j, p.1 = jsKey a.2.id j) := by
  obtain ⟨q, hq, hpq⟩ := List.mem_map.mp h
  obtain ⟨hmem, j, hj⟩ := keyedEntries_mem _ _ _ q hq
  exact ⟨q.2, hmem, by rw [← hpq], ⟨j, by rw [← hpq]; exact hj⟩⟩

theorem bmapOf_entry_of_mem (ms : List (String × MeshModel))
    (a : String × MeshModel) (h : a ∈ ms) :
    ∃ j, (jsKey a.2.id j, a.1) ∈ bmapOf ms := by
  obtain ⟨j, hj⟩ :=
    keyedEntries_mem_of_mem (fun rm : String × MeshModel => rm.2.id) ms 0 a h
  exact ⟨j, List.mem_map.mpr ⟨(jsKey a.2.id j, a), hj, rfl⟩⟩

theorem modelId_some (st : RState) (r : String)
    (h : modelId st r ≠ "") :
    ∃ m, omapGet st.meshModels r = some m ∧ m.id = modelId st r := by
  rw [modelId] at h ⊢
  cases hm : omapGet st.meshModels r with
  | none => rw [hm] at h; simp at h
  | some m => exact ⟨m, rfl, by simp⟩

/-- Entries of the frontend map name live entities, keyed by their own id
when all ids are nonempty. -/
theorem fmapOf_entry (st : RState)
    (hfront : ∀ i ∈ st.nvMeshes.map NVMesh.id, i ≠ "")
    (p : String × NVMesh) (h : p ∈ fmapOf st) :
    p.2 ∈ st.nvMeshes ∧ p.1 = p.2.id := by
  have hmem := buildKeyed_mem_sub _ _ h
  obtain ⟨hmem', j, hj⟩ := keyedEntries_mem _ _ _ p hmem
  have hne : p.2.id ≠ "" :=
    hfront p.2.id (List.mem_map.mpr ⟨p.2, hmem', rfl⟩)
  rw [jsKey, if_neg hne] at hj
  exact ⟨hmem', hj⟩

/-- The synchronisation theorem for one completed reconciliation pass: the
reference list is untouched, every backend descriptor ends with a nonempty
id, and the final renderer id sequence equals the final backend id
sequence, in order. -/
theorem render_meshes_sync (env : Env) (st stF : RState) (evs : List Ev)
    (W : WFpass env st)
    (h : render_meshes env st = some (stF, evs)) :
    stF.meshesList = st.meshesList ∧
    (∀ r ∈ st.meshesList, ∃ mF : MeshModel,
      omapGet stF.meshModels r = some mF ∧ mF.id ≠ "") ∧
    stF.nvMeshes.map NVMesh.id =
      st.meshesList.map (fun r => modelId stF r) := by
  obtain ⟨Wres, Wrefs, Wkeys, Wfront, Wfresh⟩ := W
  obtain ⟨ms, stA, evs1, hg, hsnap, ha, hevs, hstF⟩ :=
    render_meshes_inv env st stF evs Wkeys h
  obtain ⟨hmsfst, hmslook⟩ := gather_models_spec _ _ _ hg
  have hlen : (backendSnap st).length = ms.length := by rw [hsnap]
  -- the creation-pass invariant
  have hout := addPass_main env st ms.length
    (fun mesh hmm => Wfront mesh.id (List.mem_map.mpr ⟨mesh, hmm, rfl⟩))
    (by
      intro k hk1 hk2
      have hd := Wfresh (k - st.fresh) (by omega)
      have hk : st.fresh + (k - st.fresh) = k := by omega
      rw [hk] at hd
      exact ⟨hd.1, fun mesh hmm =>
        hd.2 mesh.id (List.mem_map.mpr ⟨mesh, hmm, rfl⟩)⟩)
    (bmapOf ms) st
    (by
      intro p hp
      obtain ⟨a, hamem, hafst, j, hj⟩ := bmapOf_entry ms p hp
      refine ⟨a.2, by rw [← hafst]; exact hmslook a hamem, ?_⟩
      intro hne
      rw [hj, jsKey, if_neg hne])
    (by rw [bmapOf_values, hmsfst]; exact Wrefs)
    Wfront
    (fun i hi => hi)
    ⟨le_refl _, by rw [bmapOf_length]⟩
    stA evs1 ha
  obtain ⟨o1, o2, o3, o4, o5, o6, o7⟩ := hout
  -- every backend reference has a processed entry
  have hentry : ∀ r ∈ st.meshesList, ∃ p ∈ bmapOf ms, p.2 = r := by
    intro r hr
    rw [← hmsfst] at hr
    obtain ⟨a, ha', hafst⟩ := List.mem_map.mp hr
    obtain ⟨j, hj⟩ := bmapOf_entry_of_mem ms a ha'
    exact ⟨(jsKey a.2.id j, a.1), hj, hafst⟩
  -- frame facts through removal and reorder
  obtain ⟨hrm1, hrm2, _⟩ :=
    removePass_frames (bmapOf ms) (fmapOf st) stA
  have hF1 : stF.meshModels = stA.meshModels := by
    rw [hstF]
    exact hrm1
  have hF2 : stF.meshesList = st.meshesList := by
    rw [hstF]
    show (removePass (bmapOf ms) (fmapOf st) stA).1.meshesList =
      st.meshesList
    rw [hrm2]
    exact addPass_meshesList env (fmapOf st) (bmapOf ms) st stA evs1 ha
  have hmodF : ∀ r, modelId stF r = modelId stA r := by
    intro r
    rw [modelId, modelId, hF1]
  -- survival of every backend id through the removal pass
  have hsur : ∀ r ∈ st.meshesList,
      modelId stA r ∈
        (removePass (bmapOf ms) (fmapOf st) stA).1.nvMeshes.map
          NVMesh.id := by
    intro r hr
    obtain ⟨p, hp, hpr⟩ := hentry r hr
    obtain ⟨q1, q2, q3⟩ := o5 p hp
    rw [hpr] at q1 q2 q3
    refine removePass_keep (bmapOf ms) (modelId stA r) (fmapOf st) stA
      ?_ q2
    intro pf hpf hhas hideq
    obtain ⟨hfmem, hfkey⟩ := fmapOf_entry st Wfront pf hpf
    rcases q3 with q3 | ⟨j, hj1, hj2, hj3⟩
    · -- the id is the entry's own backend key, which is present in bmap
      have : omapHas (bmapOf ms) pf.1 = true := by
        rw [omapHas_iff_mem_keys]
        rw [hfkey, hideq, q3]
        exact List.mem_map.mpr ⟨p, hp, rfl⟩
      rw [this] at hhas
      exact absurd hhas (by simp)
    · -- the id is a consumed uuid, fresh for every live entity
      have hjlt : j - st.fresh < (backendSnap st).length := by
        have h42 := o4.2
        rw [bmapOf_length] at h42
        rw [hlen]
        omega
      have hfr := (Wfresh (j - st.fresh) hjlt).2
      have hk : st.fresh + (j - st.fresh) = j := by omega
      rw [hk] at hfr
      have : pf.2.id ∈ st.nvMeshes.map NVMesh.id :=
        List.mem_map.mpr ⟨pf.2, hfmem, rfl⟩
      exact hfr pf.2.id this (by rw [← hj3, ← hideq])
  refine ⟨hF2, ?_, ?_⟩
  · intro r hr
    obtain ⟨p, hp, hpr⟩ := hentry r hr
    obtain ⟨q1, _, _⟩ := o5 p hp
    rw [hpr] at q1
    rw [← hmodF r] at q1
    obtain ⟨mF, hmF, hmFid⟩ := modelId_some stF r q1
    refine ⟨mF, hmF, ?_⟩
    rw [hmFid]
    exact q1
  · -- the reorder pass reproduces the backend id sequence
    have hreo := reorderList_map_id
      (removePass (bmapOf ms) (fmapOf st) stA).1
      (removePass (bmapOf ms) (fmapOf st) stA).1.meshesList
      (by
        intro r hr
        have hr' : r ∈ st.meshesList := by
          rw [hrm2] at hr
          rw [← addPass_meshesList env (fmapOf st) (bmapOf ms) st stA evs1
            ha]
          exact hr
        obtain ⟨p, hp, hpr⟩ := hentry r hr'
        obtain ⟨q1, _, _⟩ := o5 p hp
        rw [hpr] at q1
        obtain ⟨m, hm, hmid⟩ := modelId_some stA r q1
        refine ⟨m, by rw [hrm1]; exact hm, ?_⟩
        rw [hmid]
        exact hsur r hr')
    have hnv : stF.nvMeshes = reorderList
        (removePass (bmapOf ms) (fmapOf st) stA).1
        (removePass (bmapOf ms) (fmapOf st) stA).1.meshesList := by
      rw [hstF]
      rfl
    rw [hnv, hreo]
    have hlist : (removePass (bmapOf ms) (fmapOf st) stA).1.meshesList =
        st.meshesList := by
      rw [hrm2]
      exact addPass_meshesList env (fmapOf st) (bmapOf ms) st stA evs1 ha
    rw [hlist]
    have hfun : ∀ r ∈ st.meshesList,
        modelId (removePass (bmapOf ms) (fmapOf st) stA).1 r =
          modelId stF r := by
      intro r _
      rw [modelId, modelId, hF1, hrm1]
    exact List.map_congr_left hfun

/-- Structural inversion of `render_meshes` without assuming anything
about the backend keys: the backend map is the JS-Map dedup of the raw
keyed entries. -/
theorem render_meshes_inv0 (env : Env) (st stF : RState) (evs : List Ev)
    (h : render_meshes env st = some (stF, evs)) :
    ∃ ms stA evs1,
      gather_models st.meshModels st.meshesList = some ms ∧
      addPass env (fmapOf st) (buildKeyed (bmapOf ms)) st =
        some (stA, evs1) ∧
      evs = evs1 ++
        (removePass (buildKeyed (bmapOf ms)) (fmapOf st) stA).2 ∧
      stF = reorderPass
        (removePass (buildKeyed (bmapOf ms)) (fmapOf st) stA).1 := by
  rw [render_meshes] at h
  cases hg : gather_models st.meshModels st.meshesList with
  | none => rw [hg] at h; exact absurd h (by simp)
  | some ms =>
      simp only [hg] at h
      cases ha : addPass env
          (buildKeyed (keyedEntries (fun mesh => mesh.id) st.nvMeshes 0))
          (buildKeyed ((keyedEntries
            (fun rm : String × MeshModel => rm.2.id) ms 0).map
            (fun p => (p.1, p.2.1)))) st with
      | none =>
          rw [ha] at h
          exact absurd h (by simp)
      | some q =>
          obtain ⟨stA, evs1⟩ := q
          rw [ha] at h
          simp only [Option.some.injEq, Prod.mk.injEq] at h
          exact ⟨ms, stA, evs1, rfl, ha, h.2.symm, h.1.symm⟩

theorem omapSet_keys (m : List (String × α)) (k : String) (v : α) :
    (omapSet m k v).map Prod.fst =
      if omapHas m k then m.map Prod.fst else m.map Prod.fst ++ [k] := by
  induction m with
  | nil => simp [omapSet, omapHas]
  | cons p rest ih =>
      by_cases hp : p.1 = k
      · simp [omapSet, omapHas, hp]
      · simp only [omapSet, if_neg hp, omapHas, List.map_cons, ih]
        by_cases hh : omapHas rest k <;> simp [hh]

/-- JS-Map dedup always yields duplicate-free keys. -/
theorem buildKeyed_keys_nodup (l : List (String × α)) :
    ((buildKeyed l).map Prod.fst).Nodup := by
  suffices haux : ∀ acc : List (String × α), (acc.map Prod.fst).Nodup →
      ((l.foldl (fun m p => omapSet m p.1 p.2) acc).map Prod.fst).Nodup by
    exact haux [] (by simp)
  induction l with
  | nil => intro acc hacc; exact hacc
  | cons p rest ih =>
      intro acc hacc
      rw [List.foldl_cons]
      refine ih (omapSet acc p.1 p.2) ?_
      rw [omapSet_keys]
      by_cases hh : omapHas acc p.1
      · simpa [hh] using hacc
      · rw [if_neg hh]
        rw [List.nodup_append]
        refine ⟨hacc, by simp, ?_⟩
        intro a ha hb
        rw [List.mem_singleton] at hb
        rw [hb] at ha
        exact hh ((omapHas_iff_mem_keys acc p.1).mpr ha)

theorem isRemoveMeshFor_imp (X : String) (ev : Ev)
    (h : Ev.isRemoveMeshFor X ev = true) : Ev.isRemoveMesh ev = true := by
  cases ev <;> simp [Ev.isRemoveMeshFor, Ev.isRemoveMesh] at h ⊢

theorem isDisposeRunFor_imp (X : String) (ev : Ev)
    (h : Ev.isDisposeRunFor X ev = true) : Ev.isDisposeRun ev = true := by
  cases ev <;> simp [Ev.isDisposeRunFor, Ev.isDisposeRun] at h ⊢

/-- A completed pass, decomposed together with the creation-pass outcome
bundle. -/
theorem render_meshes_addout (env : Env) (st stF : RState) (evs : List Ev)
    (W : WFpass env st)
    (h : render_meshes env st = some (stF, evs)) :
    ∃ ms stA evs1,
      gather_models st.meshModels st.meshesList = some ms ∧
      ms = backendSnap st ∧
      addPass env (fmapOf st) (bmapOf ms) st = some (stA, evs1) ∧
      evs = evs1 ++ (removePass (bmapOf ms) (fmapOf st) stA).2 ∧
      stF = reorderPass (removePass (bmapOf ms) (fmapOf st) stA).1 ∧
      AddOut env (bmapOf ms) st stA evs1 := by
  obtain ⟨Wres, Wrefs, Wkeys, Wfront, Wfresh⟩ := W
  obtain ⟨ms, stA, evs1, hg, hsnap, ha, hevs, hstF⟩ :=
    render_meshes_inv env st stF evs Wkeys h
  obtain ⟨hmsfst, hmslook⟩ := gather_models_spec _ _ _ hg
  refine ⟨ms, stA, evs1, hg, hsnap, ha, hevs, hstF, ?_⟩
  exact addPass_main env st ms.length
    (fun mesh hmm => Wfront mesh.id (List.mem_map.mpr ⟨mesh, hmm, rfl⟩))
    (by
      intro k hk1 hk2
      have hlen : (backendSnap st).length = ms.length := by rw [hsnap]
      have hd := Wfresh (k - st.fresh) (by omega)
      have hk : st.fresh + (k - st.fresh) = k := by omega
      rw [hk] at hd
      exact ⟨hd.1, fun mesh hmm =>
        hd.2 mesh.id (List.mem_map.mpr ⟨mesh, hmm, rfl⟩)⟩)
    (bmapOf ms) st
    (by
      intro p hp
      obtain ⟨a, hamem, hafst, j, hj⟩ := bmapOf_entry ms p hp
      refine ⟨a.2, by rw [← hafst]; exact hmslook a hamem, ?_⟩
      intro hne
      rw [hj, jsKey, if_neg hne])
    (by rw [bmapOf_values, hmsfst]; exact Wrefs)
    Wfront
    (fun i hi => hi)
    ⟨le_refl _, by rw [bmapOf_length]⟩
    stA evs1 ha

/-- C1: for every backend mesh descriptor list, after a reconciliation
pass (`render_meshes`) completes, the renderer's live mesh id sequence
equals the sequence of the (final) backend descriptor ids, in the same
order; moreover no descriptor is left with an empty id, so the "modulo
pending creation" proviso of the claim is vacuous for a completed pass. -/
theorem C1_reconciliation_id_sequence (env : Env) (st stF : RState)
    (evs : List Ev) (W : WFpass env st)
    (h : render_meshes env st = some (stF, evs)) :
    stF.nvMeshes.map NVMesh.id =
      st.meshesList.map (fun r => modelId stF r) ∧
    ∀ r ∈ st.meshesList, modelId stF r ≠ "" := by
  obtain ⟨_, h2, h3⟩ := render_meshes_sync env st stF evs W h
  refine ⟨h3, ?_⟩
  intro r hr
  obtain ⟨mF, hmF, hne⟩ := h2 r hr
  rw [modelId, hmF]
  simpa using hne

/-- C5: for every id live on the renderer but absent from the backend map,
the pass performs exactly one renderer removal of that entity and exactly
one Disposer invocation for that id, and the invocation runs exactly the
teardown previously registered for the entity. -/
theorem C5_removal_exactly_once (env : Env) (st stF : RState)
    (evs : List Ev) (X : String) (D : List Listener) (W : WFpass env st)
    (h : render_meshes env st = some (stF, evs))
    (hX : X ∈ frontendKeys st)
    (hnb : X ∉ backendKeys st)
    (hD : omapGet st.disposer X = some D) :
    evs.countP (Ev.isRemoveMeshFor X) = 1 ∧
    evs.filter (Ev.isDisposeRunFor X) = [Ev.disposeRun X D] := by
  obtain ⟨ms, stA, evs1, hg, hsnap, ha, hevs, hstF, hout⟩ :=
    render_meshes_addout env st stF evs W h
  obtain ⟨Wres, Wrefs, Wkeys, Wfront, Wfresh⟩ := W
  obtain ⟨hmsfst, hmslook⟩ := gather_models_spec _ _ _ hg
  obtain ⟨o1, o2, o3, o4, o5, o6, o7⟩ := hout
  have hXid : X ∈ st.nvMeshes.map NVMesh.id := by
    rw [frontendKeys, frontKeys_eq st.nvMeshes Wfront 0] at hX
    exact hX
  have hXne : X ≠ "" := Wfront X hXid
  have hbkeys : (bmapOf ms).map Prod.fst = backendKeys st := by
    rw [bmapOf_keys, backendKeys, ← hsnap]
  -- events of the creation pass touch no removal or dispose
  have hc1 : evs1.countP (Ev.isRemoveMeshFor X) = 0 := by
    rw [List.countP_eq_zero]
    intro ev hev hp
    exact Bool.false_ne_true ((o7 ev hev).1.symm.trans
      (isRemoveMeshFor_imp X ev hp))
  have hf1 : evs1.filter (Ev.isDisposeRunFor X) = [] := by
    rw [List.filter_eq_nil_iff]
    intro ev hev hp
    exact Bool.false_ne_true ((o7 ev hev).2.symm.trans
      (isDisposeRunFor_imp X ev hp))
  -- the Disposer entry for X survives the creation pass
  have hA6 : omapGet stA.disposer X = omapGet st.disposer X := by
    refine o6 X ?_ ?_
    · intro p hp msnap hmp hq
      obtain ⟨a, hamem, hafst, j, hj⟩ := bmapOf_entry ms p hp
      rw [← hafst] at hmp
      rw [hmslook a hamem] at hmp
      have hma : msnap = a.2 := (Option.some.injEq _ _ ▸ hmp).symm
      have haid : a.2.id ≠ "" := by
        rw [← hma, ← hq]
        exact hXne
      refine hnb ?_
      rw [← hbkeys]
      have : p.1 = X := by
        rw [hj, jsKey, if_neg haid, ← hma, ← hq]
      rw [← this]
      exact List.mem_map.mpr ⟨p, hp, rfl⟩
    · intro j hj1 hj2 hq
      have hlen : (backendSnap st).length = ms.length := by rw [hsnap]
      have h42 := o4.2
      rw [bmapOf_length] at h42
      have hd := (Wfresh (j - st.fresh) (by omega)).2
      have hk : st.fresh + (j - st.fresh) = j := by omega
      rw [hk] at hd
      exact hd X hXid hq.symm
  -- the removal pass fires exactly once for X
  have hrem := removePass_events_for (bmapOf ms) X D (fmapOf st) stA
    (fun p hp => ((fmapOf_entry st Wfront p hp).2).symm)
    (buildKeyed_keys_nodup _)
    (by
      have hhas : omapHas (fmapOf st) X = true := by
        rw [fmapOf, omapHas_buildKeyed, omapHas_iff_mem_keys]
        exact hX
      obtain ⟨v, hv⟩ := omapGet_eq_some_of_has _ _ hhas
      exact ⟨v, mem_of_omapGet_eq_some _ _ _ hv⟩)
    (by
      cases hbb : omapHas (bmapOf ms) X with
      | false => rfl
      | true =>
          refine absurd ?_ hnb
          rw [← hbkeys]
          exact (omapHas_iff_mem_keys _ _).mp hbb)
    (by rw [hA6]; exact hD)
  rw [hevs]
  constructor
  · rw [List.countP_append, hc1, hrem.1]
  · rw [List.filter_append, hf1, hrem.2]
    rfl

/-- C2: running the reconciliation twice in a row with no backend change
in between produces zero entity creations (mesh payload decodes), zero
renderer additions, zero renderer removals and zero Disposer invocations
on the second run — including for preloaded descriptors, whose defensive
re-adoption branch re-runs `create_mesh` but constructs nothing. -/
theorem C2_second_run_no_churn (env : Env) (st st1 st2 : RState)
    (ev1 ev2 : List Ev) (W : WFpass env st)
    (h1 : render_meshes env st = some (st1, ev1))
    (h2 : render_meshes env st1 = some (st2, ev2)) :
    ev2.countP Ev.isDecodeMesh = 0 ∧ ev2.countP Ev.isAddMesh = 0 ∧
    ev2.countP Ev.isRemoveMesh = 0 ∧ ev2.countP Ev.isDisposeRun = 0 := by
  obtain ⟨hlist, hres, hids⟩ := render_meshes_sync env st st1 ev1 W h1
  have hfront1 : ∀ i ∈ st1.nvMeshes.map NVMesh.id, i ≠ "" := by
    intro i hi
    rw [hids] at hi
    obtain ⟨r, hr, hmod⟩ := List.mem_map.mp hi
    obtain ⟨mF, hmF, hne⟩ := hres r hr
    rw [← hmod, modelId, hmF]
    simpa using hne
  obtain ⟨ms2, stA2, evsA2, hg2, ha2, hevs2, hstF2⟩ :=
    render_meshes_inv0 env st1 st2 ev2 h2
  obtain ⟨hms2fst, hms2look⟩ := gather_models_spec _ _ _ hg2
  have hperentry : ∀ p ∈ buildKeyed (bmapOf ms2), ∃ m : MeshModel,
      omapGet st1.meshModels p.2 = some m ∧ m.id = p.1 ∧ m.id ≠ "" ∧
      omapHas (fmapOf st1) p.1 = true := by
    intro p hp
    have hp' := buildKeyed_mem_sub _ _ hp
    obtain ⟨a, hamem, hafst, j, hj⟩ := bmapOf_entry ms2 p hp'
    have har : a.1 ∈ st1.meshesList := by
      rw [← hms2fst]
      exact List.mem_map.mpr ⟨a, hamem, rfl⟩
    have har' : a.1 ∈ st.meshesList := by
      rw [← hlist]
      exact har
    obtain ⟨mF, hmF, hne⟩ := hres a.1 har'
    have hma : a.2 = mF := by
      rw [hms2look a hamem] at hmF
      exact Option.some.injEq _ _ ▸ hmF
    have haid : a.2.id ≠ "" := by rw [hma]; exact hne
    have hkey : p.1 = a.2.id := by rw [hj, jsKey, if_neg haid]
    refine ⟨a.2, by rw [← hafst]; exact hms2look a hamem, hkey.symm, haid,
      ?_⟩
    rw [fmapOf, omapHas_buildKeyed, omapHas_iff_mem_keys,
      frontKeys_eq st1.nvMeshes hfront1 0, hkey, hids]
    refine List.mem_map.mpr ⟨a.1, har', ?_⟩
    rw [modelId, hms2look a hamem]
    rfl
  have hadd := addPass_noop_events env (fmapOf st1) (buildKeyed (bmapOf ms2))
    st1 stA2 evsA2 hperentry ha2
  have hremnoop := removePass_noop (buildKeyed (bmapOf ms2)) (fmapOf st1)
    stA2
    (by
      intro p hp
      obtain ⟨hfm, hfk⟩ := fmapOf_entry st1 hfront1 p hp
      rw [omapHas_buildKeyed, omapHas_iff_mem_keys]
      have hpid : p.1 ∈ st1.nvMeshes.map NVMesh.id := by
        rw [hfk]
        exact List.mem_map.mpr ⟨p.2, hfm, rfl⟩
      have hpne : p.1 ≠ "" := hfront1 p.1 hpid
      rw [hids] at hpid
      obtain ⟨r, hr, hmod⟩ := List.mem_map.mp hpid
      have hr' : r ∈ List.map Prod.fst ms2 := by
        rw [hms2fst, hlist]
        exact hr
      obtain ⟨a, hamem, hafst⟩ := List.mem_map.mp hr'
      have haid : a.2.id = p.1 := by
        rw [← hmod, modelId, ← hafst, hms2look a hamem]
        rfl
      obtain ⟨j, hjmem⟩ := bmapOf_entry_of_mem ms2 a hamem
      have hkey : jsKey a.2.id j = p.1 := by
        rw [jsKey, if_neg (by rw [haid]; exact hpne), haid]
      rw [← hkey]
      exact List.mem_map.mpr ⟨(jsKey a.2.id j, a.1), hjmem, rfl⟩)
  have hev2 : ev2 = evsA2 := by
    rw [hevs2, hremnoop]
    simp
  rw [hev2]
  refine ⟨?_, ?_, ?_, ?_⟩
  · rw [List.countP_eq_zero]
    intro ev hev hp
    exact Bool.false_ne_true (((hadd ev hev).1).symm.trans hp)
  · rw [List.countP_eq_zero]
    intro ev hev hp
    exact Bool.false_ne_true (((hadd ev hev).2.1).symm.trans hp)
  · rw [List.countP_eq_zero]
    intro ev hev hp
    exact Bool.false_ne_true (((hadd ev hev).2.2.1).symm.trans hp)
  · rw [List.countP_eq_zero]
    intro ev hev hp
    exact Bool.false_ne_true (((hadd ev hev).2.2.2).symm.trans hp)

theorem processLayers_preloaded (env : Env) :
    ∀ (lms : List (String × MeshLayerModel)),
      (∀ p ∈ lms, p.2.path.name = preloaded) →
      ∀ (mesh : NVMesh) (i : Nat),
        (processLayers env mesh lms i).1 = mesh ∧
        (processLayers env mesh lms i).2.2.2 = [] := by
  intro lms
  induction lms with
  | nil => intro _ mesh i; exact ⟨rfl, rfl⟩
  | cons q rest ih =>
      intro hl mesh i
      obtain ⟨lref, lm⟩ := q
      have hp : lm.path.name = preloaded := hl (lref, lm) (by simp)
      have hrest : ∀ p ∈ rest, p.2.path.name = preloaded :=
        fun p hp' => hl p (List.mem_cons_of_mem _ hp')
      simp only [processLayers, if_pos hp]
      cases hj : (mesh.layers.get? i).join with
      | none => exact ih hrest mesh (i + 1)
      | some _ =>
          obtain ⟨h1, h2⟩ := ih hrest mesh (i + 1)
          exact ⟨h1, h2⟩

theorem create_mesh_tail_preloaded_layers (env : Env) (refId : String)
    (m : MeshModel) (adopt : Option Nat) (mesh0 : NVMesh) (st : RState)
    (evs0 : List Ev) (mesh : NVMesh) (cl : List Listener) (st' : RState)
    (evs : List Ev)
    (hlays : ∀ p ∈ env.layerModels, p.2.path.name = preloaded)
    (h : create_mesh_tail env refId m adopt mesh0 st evs0 =
      some (mesh, cl, st', evs)) :
    mesh = mesh0 ∧ evs = evs0 ++ [Ev.save refId] := by
  rw [create_mesh_tail] at h
  cases hg : (if m.layers.isEmpty then some []
      else gather_models env.layerModels m.layers) with
  | none => rw [hg] at h; exact absurd h (by simp)
  | some lms =>
      have hlp : ∀ p ∈ lms, p.2.path.name = preloaded := by
        by_cases hemp : m.layers.isEmpty
        · rw [if_pos hemp] at hg
          intro p hpmem
          rw [(Option.some.injEq _ _ ▸ hg : [] = lms).symm] at hpmem
          exact absurd hpmem (List.not_mem_nil p)
        · rw [if_neg hemp] at hg
          intro p hpmem
          have hlook := (gather_models_spec _ _ _ hg).2 p hpmem
          exact hlays (p.1, p.2) (mem_of_omapGet_eq_some _ _ _ hlook)
      rw [hg] at h
      simp only [Option.some.injEq, Prod.mk.injEq] at h
      obtain ⟨h1, _, _, h4⟩ := h
      obtain ⟨hm1, he1⟩ := processLayers_preloaded env lms hlp mesh0 0
      refine ⟨h1.symm.trans hm1, ?_⟩
      rw [← h4, he1]
      simp

theorem layerTokens_fst (lref : String) (q : Listener)
    (hq : q ∈ layerTokens lref) : q.1 = lref := by
  simp only [layerTokens, List.mem_cons, List.not_mem_nil, or_false] at hq
  rcases hq with rfl | rfl | rfl | rfl | rfl | rfl | rfl <;> rfl

theorem meshTokens_fst (refId : String) (q : Listener)
    (hq : q ∈ meshTokens refId) : q.1 = refId := by
  simp only [meshTokens, List.mem_cons, List.not_mem_nil, or_false] at hq
  rcases hq with rfl | rfl | rfl | rfl <;> rfl

theorem processLayers_token_absent (env : Env) (lrefJ : String) :
    ∀ (lms : List (String × MeshLayerModel)),
      (∀ q ∈ lms, q.1 = lrefJ → q.2.path.name ≠ preloaded ∧
        readLayerOf env q.2 = none) →
      ∀ (mesh : NVMesh) (i : Nat) (p : String),
        (lrefJ, p) ∉ (processLayers env mesh lms i).2.1 := by
  intro lms
  induction lms with
  | nil => intro _ mesh i p h; exact absurd h (List.not_mem_nil _)
  | cons q rest ih =>
      intro hJ mesh i p
      obtain ⟨lref, lm⟩ := q
      have hrest : ∀ q ∈ rest, q.1 = lrefJ → q.2.path.name ≠ preloaded ∧
          readLayerOf env q.2 = none :=
        fun q hq => hJ q (List.mem_cons_of_mem _ hq)
      by_cases heq : lref = lrefJ
      · obtain ⟨hnp, hfail⟩ := hJ (lref, lm) (by simp) heq
        have hfail' : env.readLayer lm.path (lm.opacity.getD (1 / 2))
            (lm.colormap.getD "warm") (lm.colormap_negative.getD "winter")
            (lm.use_negative_cmap.getD false) lm.cal_min lm.cal_max
            (lm.frame4D.getD 0) = none := hfail
        simp only [processLayers, if_neg hnp]
        cases hl : env.readLayer lm.path (lm.opacity.getD (1 / 2))
            (lm.colormap.getD "warm") (lm.colormap_negative.getD "winter")
            (lm.use_negative_cmap.getD false) lm.cal_min lm.cal_max
            (lm.frame4D.getD 0) with
        | none =>
            exact ih hrest { mesh with layers := mesh.layers ++ [none] }
              (i + 1) p
        | some lay =>
            rw [hfail'] at hl
            exact absurd hl (by simp)
      · by_cases hpre : lm.path.name = preloaded
        · simp only [processLayers, if_pos hpre]
          cases hj : (mesh.layers.get? i).join with
          | none => exact ih hrest mesh (i + 1) p
          | some _ =>
              intro hmem
              rcases List.mem_append.mp hmem with hL | hR
              · exact heq ((layerTokens_fst lref (lrefJ, p) hL).symm)
              · exact ih hrest mesh (i + 1) p hR
        · simp only [processLayers, if_neg hpre]
          cases hl : env.readLayer lm.path (lm.opacity.getD (1 / 2))
              (lm.colormap.getD "warm") (lm.colormap_negative.getD "winter")
              (lm.use_negative_cmap.getD false) lm.cal_min lm.cal_max
              (lm.frame4D.getD 0) with
          | none =>
              exact ih hrest { mesh with layers := mesh.layers ++ [none] }
                (i + 1) p
          | some lay =>
              intro hmem
              rcases List.mem_append.mp hmem with hL | hR
              · exact heq ((layerTokens_fst lref (lrefJ, p) hL).symm)
              · exact ih hrest
                  { mesh with layers := mesh.layers ++ [some lay] }
                  (i + 1) p hR

theorem processLayers_token_present (env : Env) (lrefK : String)
    (lmK : MeshLayerModel) (lay : NVMeshLayer)
    (hKp : lmK.path.name ≠ preloaded)
    (hKs : readLayerOf env lmK = some lay) :
    ∀ (lms : List (String × MeshLayerModel)),
      (lrefK, lmK) ∈ lms →
      ∀ (mesh : NVMesh) (i : Nat) (tk : Listener),
        tk ∈ layerTokens lrefK →
        tk ∈ (processLayers env mesh lms i).2.1 := by
  intro lms
  induction lms with
  | nil => intro h; exact absurd h (List.not_mem_nil _)
  | cons q rest ih =>
      intro hmem mesh i tk htk
      obtain ⟨lref, lm⟩ := q
      rcases List.mem_cons.mp hmem with heq | hrest
      · have h1 : lref = lrefK := (congrArg Prod.fst heq).symm
        have h2 : lm = lmK := (congrArg Prod.snd heq).symm
        subst h1
        subst h2
        have hKs' : env.readLayer lm.path (lm.opacity.getD (1 / 2))
            (lm.colormap.getD "warm") (lm.colormap_negative.getD "winter")
            (lm.use_negative_cmap.getD false) lm.cal_min lm.cal_max
            (lm.frame4D.getD 0) = some lay := hKs
        simp only [processLayers, if_neg hKp]
        cases hl : env.readLayer lm.path (lm.opacity.getD (1 / 2))
            (lm.colormap.getD "warm") (lm.colormap_negative.getD "winter")
            (lm.use_negative_cmap.getD false) lm.cal_min lm.cal_max
            (lm.frame4D.getD 0) with
        | none =>
            rw [hKs'] at hl
            exact absurd hl (by simp)
        | some l => exact List.mem_append_left _ htk
      · by_cases hpre : lm.path.name = preloaded
        · simp only [processLayers, if_pos hpre]
          cases hj : (mesh.layers.get? i).join with
          | none => exact ih hrest mesh (i + 1) tk htk
          | some _ =>
              exact List.mem_append_right _ (ih hrest mesh (i + 1) tk htk)
        · simp only [processLayers, if_neg hpre]
          cases hl : env.readLayer lm.path (lm.opacity.getD (1 / 2))
              (lm.colormap.getD "warm") (lm.colormap_negative.getD "winter")
              (lm.use_negative_cmap.getD false) lm.cal_min lm.cal_max
              (lm.frame4D.getD 0) with
          | none =>
              exact ih hrest { mesh with layers := mesh.layers ++ [none] }
                (i + 1) tk htk
          | some l =>
              exact List.mem_append_right _
                (ih hrest { mesh with layers := mesh.layers ++ [some l] }
                  (i + 1) tk htk)

theorem create_mesh_tail_listeners (env : Env) (refId : String)
    (m : MeshModel) (adopt : Option Nat) (mesh0 : NVMesh) (st : RState)
    (evs0 : List Ev) (mesh : NVMesh) (cl : List Listener) (st' : RState)
    (evs : List Ev) (lms : List (String × MeshLayerModel))
    (hg : (if m.layers.isEmpty then some []
        else gather_models env.layerModels m.layers) = some lms)
    (h : create_mesh_tail env refId m adopt mesh0 st evs0 =
      some (mesh, cl, st', evs)) :
    st'.listeners = st.listeners ++
      ((processLayers env mesh0 lms 0).2.1 ++ meshTokens refId) := by
  rw [create_mesh_tail, hg] at h
  simp only [Option.some.injEq, Prod.mk.injEq] at h
  obtain ⟨_, _, h3, _⟩ := h
  rw [← h3]
  cases adopt with
  | none => simp
  | some idx => simp

/-- C3: creating an entity from a non-preloaded descriptor assigns it the
next renderer id and the name computed from the payload file, writes both
back into the backend descriptor, commits that mutation (`save_changes`,
emitted as the save event and modelled by clearing the unsaved flag), and
the committed descriptor fails the creation condition of any later pass
whose frontend map contains the assigned id — so the later pass matches
the entity by id instead of recreating it. -/
theorem C3_writeback_and_commit (env : Env) (refId : String) (st : RState)
    (m : MeshModel) (mesh : NVMesh) (cl : List Listener) (st' : RState)
    (evs : List Ev) (fmap : List (String × NVMesh))
    (hm : omapGet st.meshModels refId = some m)
    (hp : m.path.name ≠ preloaded)
    (h : create_mesh env refId st = some (mesh, cl, st', evs))
    (hfresh : env.freshId st.fresh ≠ "")
    (hhas : omapHas fmap mesh.id = true) :
    mesh.id = env.freshId st.fresh ∧
    mesh.name = m.path.name ∧
    omapGet st'.meshModels refId =
      some { m with id := mesh.id, name := mesh.name, unsaved := false } ∧
    Ev.save refId ∈ evs ∧
    ∀ st2 : RState, addCond fmap st2 mesh.id
      { m with id := mesh.id, name := mesh.name, unsaved := false } =
        false := by
  simp only [create_mesh, hm] at h
  rw [if_neg hp] at h
  obtain ⟨hid, hname, hreg, _, _, _, _, _, lE, hevs, _⟩ :=
    create_mesh_tail_some_facts env refId m none
      (mkMesh (env.freshId st.fresh) m)
      { st with fresh := st.fresh + 1 } [Ev.decodeMesh m.path.name]
      mesh cl st' evs h
  have hmeshid : mesh.id = env.freshId st.fresh := by rw [hid]; rfl
  have hmeshname : mesh.name = m.path.name := by rw [hname]; rfl
  have hmid : mesh.id ≠ "" := by rw [hmeshid]; exact hfresh
  refine ⟨hmeshid, hmeshname, ?_, ?_, ?_⟩
  · rw [hreg]
    exact omapGet_set_self st.meshModels refId _
  · rw [hevs]
    simp
  · intro st2
    simp only [addCond, hhas, Bool.not_true, Bool.false_or,
      Bool.or_eq_false_iff, Bool.and_eq_false_iff]
    refine ⟨decide_eq_false hmid, Or.inl (decide_eq_false hp)⟩

/-- C4: for a preloaded descriptor whose id matches a live renderer
entity (all of whose layer descriptors are preloaded as the event bridge
snapshots them), the creation pass adopts the existing entity: no mesh or
layer payload decode occurs, no renderer id is consumed, the existing
entity object is returned verbatim and the renderer array is unchanged;
processing the entry emits no renderer add; and a processed non-preloaded
entry emits exactly one renderer add. -/
theorem C4_preloaded_adoption (env : Env) (fmap : List (String × NVMesh))
    (key refId : String) (st : RState) (m : MeshModel) (idx : Nat)
    (mesh0 : NVMesh)
    (hm : omapGet st.meshModels refId = some m)
    (hp : m.path.name = preloaded)
    (hfi : jsFindIndex (fun mm => mm.id = m.id) st.nvMeshes = some idx)
    (hget : st.nvMeshes.get? idx = some mesh0)
    (hres : ∀ l ∈ m.layers, (omapGet env.layerModels l).isSome = true)
    (hlays : ∀ p ∈ env.layerModels, p.2.path.name = preloaded)
    (hc : addCond fmap st key m = true) :
    (∃ cl st1 evs1,
      create_mesh env refId st = some (mesh0, cl, st1, evs1) ∧
      st1.nvMeshes = st.nvMeshes ∧ st1.fresh = st.fresh ∧
      ∀ ev ∈ evs1, ev.isDecodeMesh = false ∧ ev.isDecodeLayer = false ∧
        ev.isAddMesh = false) ∧
    (∃ st' evs, addPass env fmap [(key, refId)] st = some (st', evs) ∧
      st'.nvMeshes = st.nvMeshes ∧
      ∀ ev ∈ evs, ev.isAddMesh = false ∧ ev.isDecodeMesh = false ∧
        ev.isDecodeLayer = false) ∧
    (∀ (st0 st'0 : RState) (m0 : MeshModel) (key0 refId0 : String)
      (evs0 : List Ev),
      omapGet st0.meshModels refId0 = some m0 →
      m0.path.name ≠ preloaded →
      addCond fmap st0 key0 m0 = true →
      addPass env fmap [(key0, refId0)] st0 = some (st'0, evs0) →
      evs0.countP Ev.isAddMesh = 1) := by
  have hred : create_mesh env refId st =
      create_mesh_tail env refId m (some idx) mesh0 st [] := by
    simp only [create_mesh, hm]
    rw [if_pos hp]
    simp only [hfi, hget]
  obtain ⟨lms, hg⟩ : ∃ lms, (if m.layers.isEmpty then some []
      else gather_models env.layerModels m.layers) = some lms := by
    by_cases hemp : m.layers.isEmpty
    · exact ⟨[], by rw [if_pos hemp]⟩
    · obtain ⟨lms, hlms⟩ := gather_models_isSome env.layerModels m.layers
        hres
      exact ⟨lms, by rw [if_neg hemp]; exact hlms⟩
  have hsome : (create_mesh_tail env refId m (some idx) mesh0 st
      []).isSome = true := by
    rw [create_mesh_tail, hg]
    rfl
  obtain ⟨q, hq⟩ := Option.isSome_iff_exists.mp hsome
  obtain ⟨mesh, cl, st1, evs1⟩ := q
  obtain ⟨hmeq, hevseq⟩ := create_mesh_tail_preloaded_layers env refId m
    (some idx) mesh0 st [] mesh cl st1 evs1 hlays hq
  subst hmeq
  obtain ⟨hid, hname, hreg, hlist, hdisp, hfresh, hL, hnv, _, _, _⟩ :=
    create_mesh_tail_some_facts env refId m (some idx) mesh st []
      mesh cl st1 evs1 hq
  have hcreate : create_mesh env refId st = some (mesh, cl, st1, evs1) :=
    hred.trans hq
  have hevs1 : evs1 = [Ev.save refId] := by simpa using hevseq
  have hnv1 : st1.nvMeshes = st.nvMeshes := by
    simp only at hnv
    rw [hnv]
    exact list_set_get?_eq hget
  have part1 : ∃ cl st1 evs1,
      create_mesh env refId st = some (mesh, cl, st1, evs1) ∧
      st1.nvMeshes = st.nvMeshes ∧ st1.fresh = st.fresh ∧
      ∀ ev ∈ evs1, ev.isDecodeMesh = false ∧ ev.isDecodeLayer = false ∧
        ev.isAddMesh = false := by
    refine ⟨cl, st1, evs1, hcreate, hnv1, hfresh, ?_⟩
    intro ev hev
    rw [hevs1] at hev
    rw [List.mem_singleton.mp hev]
    exact ⟨rfl, rfl, rfl⟩
  refine ⟨part1, ?_, ?_⟩
  · have hm2 : omapGet ({ st1 with
        disposer := Disposer.register st1.disposer mesh.id cl } :
          RState).meshModels refId =
        some { m with
          id := mesh.id
          name := mesh.name
          unsaved := false } := by
      show omapGet st1.meshModels refId = _
      rw [hreg]
      exact omapGet_set_self st.meshModels refId _
    have hnp : ¬(({ m with
        id := mesh.id
        name := mesh.name
        unsaved := false } : MeshModel).path.name ≠ preloaded) := by
      simp [hp]
    refine ⟨{ st1 with
        disposer := Disposer.register st1.disposer mesh.id cl },
      evs1 ++ [] ++ [], ?_, hnv1, ?_⟩
    · simp only [addPass, hm]
      rw [if_pos hc]
      simp only [hcreate]
      simp only [hm2]
      rw [if_neg hnp]
    · intro ev hev
      simp only [List.append_nil, hevs1, List.mem_singleton] at hev
      rw [hev]
      exact ⟨rfl, rfl, rfl⟩
  · intro st0 st'0 m0 key0 refId0 evs0 hm0 hp0 hc0 haddp
    rcases addPass_cons_inv env fmap key0 refId0 [] st0 st'0 evs0 m0 hm0
        haddp with
      ⟨hcf, _⟩ | ⟨_, meshN, clN, stN1, evsN1, m2, evs3, hcrN, hm2N,
        hbr⟩
    · rw [hcf] at hc0
      exact absurd hc0 Bool.false_ne_true
    · obtain ⟨mN, hmN, hregN, _, _, _, _, hif⟩ :=
        create_mesh_some_facts env refId0 st0 meshN clN stN1 evsN1 hcrN
      have hmNm0 : mN = m0 := by
        rw [hmN] at hm0
        exact Option.some.injEq _ _ ▸ hm0
      subst hmNm0
      have hm2eq : m2 = { mN with
          id := meshN.id
          name := meshN.name
          unsaved := false } := by
        rw [hregN, omapGet_set_self] at hm2N
        exact (Option.some.injEq _ _ ▸ hm2N).symm
      have hm2p : m2.path.name ≠ preloaded := by
        rw [hm2eq]
        exact hp0
      rcases hbr with ⟨_, hrest, hevs0⟩ | ⟨hpre, _, _⟩
      · rw [addPass] at hrest
        have hevs3 : evs3 = [] := by
          have := (Option.some.injEq _ _ ▸ hrest)
          exact (Prod.mk.injEq _ _ _ _ ▸ this).2.symm
        rw [if_neg hp0] at hif
        obtain ⟨_, _, hevall⟩ := hif
        rw [hevs0, hevs3]
        rw [List.countP_append, List.countP_append]
        have h0 : evsN1.countP Ev.isAddMesh = 0 := by
          rw [List.countP_eq_zero]
          intro ev hev
          rcases hevall ev hev with h | ⟨s, h⟩ | h <;> rw [h] <;>
            exact Bool.false_ne_true
        rw [h0]
        rfl
      · exact absurd hpre hm2p

/-- C9: when decoding one layer payload of a mesh fails (the reader
returns a falsy result), entity creation still succeeds — the pass is not
aborted — and the attached listeners gain no token for the failing layer
while a decodable sibling layer of the same mesh still gets its full set
of property-listener tokens. -/
theorem C9_layer_decode_failure (env : Env) (refId : String) (st : RState)
    (m : MeshModel) (lms : List (String × MeshLayerModel))
    (lrefJ lrefK : String) (lmK : MeshLayerModel) (lay : NVMeshLayer)
    (hm : omapGet st.meshModels refId = some m)
    (hp : m.path.name ≠ preloaded)
    (hemp : m.layers.isEmpty = false)
    (hgath : gather_models env.layerModels m.layers = some lms)
    (hJ : ∀ q ∈ lms, q.1 = lrefJ → q.2.path.name ≠ preloaded ∧
      readLayerOf env q.2 = none)
    (hJr : lrefJ ≠ refId)
    (hK : (lrefK, lmK) ∈ lms)
    (hKp : lmK.path.name ≠ preloaded)
    (hKs : readLayerOf env lmK = some lay) :
    ∃ mesh cl st' evs,
      create_mesh env refId st = some (mesh, cl, st', evs) ∧
      ∃ newToks, st'.listeners = st.listeners ++ newToks ∧
        (∀ p, (lrefJ, p) ∉ newToks) ∧
        (∀ tk ∈ layerTokens lrefK, tk ∈ newToks) := by
  have hne : ¬(m.layers.isEmpty = true) := by
    rw [hemp]
    exact Bool.false_ne_true
  have hg' : (if m.layers.isEmpty then some []
      else gather_models env.layerModels m.layers) = some lms := by
    rw [if_neg hne]
    exact hgath
  have hred : create_mesh env refId st =
      create_mesh_tail env refId m none (mkMesh (env.freshId st.fresh) m)
        { st with fresh := st.fresh + 1 } [Ev.decodeMesh m.path.name] := by
    simp only [create_mesh, hm]
    rw [if_neg hp]
  have hsome : (create_mesh_tail env refId m none
      (mkMesh (env.freshId st.fresh) m) { st with fresh := st.fresh + 1 }
      [Ev.decodeMesh m.path.name]).isSome = true := by
    rw [create_mesh_tail, hg']
    rfl
  obtain ⟨q, hq⟩ := Option.isSome_iff_exists.mp hsome
  obtain ⟨mesh, cl, st', evs⟩ := q
  refine ⟨mesh, cl, st', evs, hred.trans hq, ?_⟩
  have hlis := create_mesh_tail_listeners env refId m none
    (mkMesh (env.freshId st.fresh) m) { st with fresh := st.fresh + 1 }
    [Ev.decodeMesh m.path.name] mesh cl st' evs lms hg' hq
  refine ⟨(processLayers env (mkMesh (env.freshId st.fresh) m) lms 0).2.1 ++
      meshTokens refId, hlis, ?_, ?_⟩
  · intro p hmem
    rcases List.mem_append.mp hmem with hL | hR
    · exact processLayers_token_absent env lrefJ lms hJ _ 0 p hL
    · exact hJr (meshTokens_fst refId (lrefJ, p) hR)
  · intro tk htk
    exact List.mem_append_left _
      (processLayers_token_present env lrefK lmK lay hKp hKs lms hK _ 0
        tk htk)

/-- Closed instantiation of the C1 invariant on the fixture state. -/
theorem C1_witness :
    WFpass envW stW ∧
    match render_meshes envW stW with
    | some (stF, _) =>
        stF.nvMeshes.map NVMesh.id =
          stW.meshesList.map (fun r => modelId stF r) ∧
        ∀ r ∈ stW.meshesList, modelId stF r ≠ ""
    | none => False := by
  have W : WFpass envW stW := by
    refine ⟨?_, ?_, ?_, ?_, ?_⟩ <;> decide
  refine ⟨W, ?_⟩
  cases h : render_meshes envW stW with
  | none =>
      have hs : (render_meshes envW stW).isSome = true := by decide
      rw [h] at hs
      exact absurd hs (by decide)
  | some p =>
      obtain ⟨stF, evs⟩ := p
      exact C1_reconciliation_id_sequence envW stW stF evs W h

/-- Closed instantiation of the C2 idempotence property on the fixture
state: the second run of the pass reports no churn. -/
theorem C2_witness :
    WFpass envW stW ∧
    match render_meshes envW stW with
    | some (st1, _) =>
        match render_meshes envW st1 with
        | some (_, ev2) =>
            ev2.countP Ev.isDecodeMesh = 0 ∧ ev2.countP Ev.isAddMesh = 0 ∧
            ev2.countP Ev.isRemoveMesh = 0 ∧ ev2.countP Ev.isDisposeRun = 0
        | none => False
    | none => False := by
  have W : WFpass envW stW := by
    refine ⟨?_, ?_, ?_, ?_, ?_⟩ <;> decide
  refine ⟨W, ?_⟩
  have hs : ((render_meshes envW stW).bind
      fun p => render_meshes envW p.1).isSome = true := by decide
  cases h1 : render_meshes envW stW with
  | none =>
      rw [h1] at hs
      exact absurd hs (by decide)
  | some p =>
      obtain ⟨st1, ev1⟩ := p
      rw [h1] at hs
      have hs2 : (render_meshes envW st1).isSome = true := hs
      show match render_meshes envW st1 with
        | some (_, ev2) =>
            ev2.countP Ev.isDecodeMesh = 0 ∧ ev2.countP Ev.isAddMesh = 0 ∧
            ev2.countP Ev.isRemoveMesh = 0 ∧ ev2.countP Ev.isDisposeRun = 0
        | none => False
      cases h2 : render_meshes envW st1 with
      | none =>
          rw [h2] at hs2
          exact absurd hs2 (by decide)
      | some q =>
          obtain ⟨st2, ev2⟩ := q
          exact C2_second_run_no_churn envW stW st1 st2 ev1 ev2 W h1 h2

/-- Closed instantiation of the C3 write-back property on the fixture
descriptor. -/
theorem C3_witness :
    omapGet stW.meshModels "r1" = some mW ∧
    mW.path.name ≠ preloaded ∧
    envW.freshId stW.fresh ≠ "" ∧
    match create_mesh envW "r1" stW with
    | some (mesh, _, st', evs) =>
        omapHas [(mesh.id, mesh)] mesh.id = true ∧
        mesh.id = envW.freshId stW.fresh ∧
        mesh.name = mW.path.name ∧
        omapGet st'.meshModels "r1" =
          some { mW with id := mesh.id, name := mesh.name, unsaved := false } ∧
        Ev.save "r1" ∈ evs ∧
        addCond [(mesh.id, mesh)] stW2 mesh.id
          { mW with
            id := mesh.id
            name := mesh.name
            unsaved := false } = false
    | none => False := by
  have hm : omapGet stW.meshModels "r1" = some mW := rfl
  have hp : mW.path.name ≠ preloaded := by decide
  have hfresh : envW.freshId stW.fresh ≠ "" := by decide
  refine ⟨hm, hp, hfresh, ?_⟩
  cases h : create_mesh envW "r1" stW with
  | none =>
      have hs : (create_mesh envW "r1" stW).isSome = true := by decide
      rw [h] at hs
      exact absurd hs (by decide)
  | some p =>
      obtain ⟨mesh, cl, st', evs⟩ := p
      have hhas : omapHas [(mesh.id, mesh)] mesh.id = true := by
        simp [omapHas]
      obtain ⟨c1, c2, c3, c4, c5⟩ :=
        C3_writeback_and_commit envW "r1" stW mW mesh cl st' evs
          [(mesh.id, mesh)] hm hp h hfresh hhas
      exact ⟨hhas, c1, c2, c3, c4, c5 stW2⟩

/-- Closed instantiation of the C4 adoption property on the fixture
state holding a preloaded descriptor for the live entity. -/
theorem C4_witness :
    omapGet stW3.meshModels "rp" = some mP ∧
    mP.path.name = preloaded ∧
    jsFindIndex (fun mm => mm.id = mP.id) stW3.nvMeshes = some 0 ∧
    stW3.nvMeshes.get? 0 = some meshX ∧
    addCond [] stW3 "X" mP = true ∧
    (∃ cl st1 evs1,
      create_mesh envP "rp" stW3 = some (meshX, cl, st1, evs1) ∧
      st1.nvMeshes = stW3.nvMeshes ∧ st1.fresh = stW3.fresh ∧
      ∀ ev ∈ evs1, ev.isDecodeMesh = false ∧ ev.isDecodeLayer = false ∧
        ev.isAddMesh = false) ∧
    (∃ st' evs, addPass envP [] [("X", "rp")] stW3 = some (st', evs) ∧
      st'.nvMeshes = stW3.nvMeshes ∧
      ∀ ev ∈ evs, ev.isAddMesh = false ∧ ev.isDecodeMesh = false ∧
        ev.isDecodeLayer = false) := by
  have h := C4_preloaded_adoption envP [] "X" "rp" stW3 mP 0 meshX rfl rfl
    (by decide) rfl (by decide) (by decide) (by decide)
  exact ⟨rfl, rfl, by decide, rfl, by decide, h.1, h.2.1⟩

/-- Closed instantiation of the C9 skip-on-failure property on the
fixture descriptor holding a failing layer and a decodable sibling. -/
theorem C9_witness :
    omapGet st9.meshModels "r9" = some m9 ∧
    m9.path.name ≠ preloaded ∧
    m9.layers.isEmpty = false ∧
    gather_models env9.layerModels m9.layers =
      some [("lrJ", lmBad), ("lr1", lmW)] ∧
    (∀ q ∈ [("lrJ", lmBad), ("lr1", lmW)], q.1 = "lrJ" →
      q.2.path.name ≠ preloaded ∧ readLayerOf env9 q.2 = none) ∧
    "lrJ" ≠ "r9" ∧
    ("lr1", lmW) ∈ [("lrJ", lmBad), ("lr1", lmW)] ∧
    lmW.path.name ≠ preloaded ∧
    readLayerOf env9 lmW = some lay9 ∧
    (∃ mesh cl st' evs,
      create_mesh env9 "r9" st9 = some (mesh, cl, st', evs) ∧
      ∃ newToks, st'.listeners = st9.listeners ++ newToks ∧
        (∀ p, ("lrJ", p) ∉ newToks) ∧
        (∀ tk ∈ layerTokens "lr1", tk ∈ newToks)) := by
  refine ⟨rfl, by decide, by decide, by decide, by decide, by decide,
    by decide, by decide, rfl, ?_⟩
  exact C9_layer_decode_failure env9 "r9" st9 m9
    [("lrJ", lmBad), ("lr1", lmW)] "lrJ" "lr1" lmW lay9 rfl (by decide)
    (by decide) (by decide) (by decide) (by decide) (by decide)
    (by decide) rfl

/-- Closed instantiation of the C5 removal property on the fixture state
holding one live entity absent from the backend. -/
theorem C5_witness :
    WFpass envW stW2 ∧ "X" ∈ frontendKeys stW2 ∧ "X" ∉ backendKeys stW2 ∧
    omapGet stW2.disposer "X" = some [("rX", "opacity")] ∧
    match render_meshes envW stW2 with
    | some (_, evs) =>
        evs.countP (Ev.isRemoveMeshFor "X") = 1 ∧
        evs.filter (Ev.isDisposeRunFor "X") =
          [Ev.disposeRun "X" [("rX", "opacity")]]
    | none => False := by
  have W : WFpass envW stW2 := by
    refine ⟨?_, ?_, ?_, ?_, ?_⟩ <;> decide
  have hX : "X" ∈ frontendKeys stW2 := by decide
  have hnb : "X" ∉ backendKeys stW2 := by decide
  have hD : omapGet stW2.disposer "X" = some [("rX", "opacity")] := rfl
  refine ⟨W, hX, hnb, hD, ?_⟩
  cases h : render_meshes envW stW2 with
  | none =>
      have hs : (render_meshes envW stW2).isSome = true := by decide
      rw [h] at hs
      exact absurd hs (by decide)
  | some p =>
      obtain ⟨stF, evs⟩ := p
      exact C5_removal_exactly_once envW stW2 stF evs "X"
        [("rX", "opacity")] W h hX hnb hD

/-- C6: when the renderer reports a loaded volume (resp. mesh) whose id
is not among the backend descriptor ids, the bridge emits an add_volume
(resp. add_mesh) message carrying a full snapshot whose path is the
preloaded sentinel; when the id is already present no add message is
emitted; and an image_loaded (resp. mesh_loaded) message with the
entity's id is always sent. -/
theorem C6_loaded_entity_bridge (wm : List (String × VolumeModel))
    (wmm : List (String × MeshModel)) (vrefs mrefs : List String)
    (nvVols : List NVImage) (nvMeshes : List NVMesh) (uuid : Nat → String)
    (volume : NVImage) (mesh : NVMesh) :
    (volume.id ∉ backendVolumeIds wm vrefs →
      onImageLoaded wm vrefs nvVols volume =
        [OutMsg.addVolume (volumeSnap nvVols volume),
         OutMsg.imageLoaded volume.id] ∧
      (volumeSnap nvVols volume).path = preloaded) ∧
    (volume.id ∈ backendVolumeIds wm vrefs →
      onImageLoaded wm vrefs nvVols volume =
        [OutMsg.imageLoaded volume.id]) ∧
    OutMsg.imageLoaded volume.id ∈ onImageLoaded wm vrefs nvVols volume ∧
    (∀ ls, mesh.id ∉ backendMeshIds wmm mrefs →
      snapLayers uuid mesh.layers 0 = some ls →
      onMeshLoaded wmm mrefs nvMeshes uuid mesh =
        some [OutMsg.addMesh (meshSnap nvMeshes mesh ls),
          OutMsg.meshLoaded mesh.id] ∧
      (meshSnap nvMeshes mesh ls).path = preloaded) ∧
    (mesh.id ∈ backendMeshIds wmm mrefs →
      onMeshLoaded wmm mrefs nvMeshes uuid mesh =
        some [OutMsg.meshLoaded mesh.id]) ∧
    (∀ msgs, onMeshLoaded wmm mrefs nvMeshes uuid mesh = some msgs →
      OutMsg.meshLoaded mesh.id ∈ msgs) := by
  refine ⟨?_, ?_, ?_, ?_, ?_, ?_⟩
  · intro h
    rw [onImageLoaded, if_pos h]
    exact ⟨rfl, rfl⟩
  · intro h
    rw [onImageLoaded, if_neg (not_not_intro h)]
  · by_cases h : volume.id ∈ backendVolumeIds wm vrefs
    · rw [onImageLoaded, if_neg (not_not_intro h)]
      simp
    · rw [onImageLoaded, if_pos h]
      simp
  · intro ls hnot hsnap
    rw [onMeshLoaded, if_pos hnot, hsnap]
    exact ⟨rfl, rfl⟩
  · intro h
    rw [onMeshLoaded, if_neg (not_not_intro h)]
  · intro msgs hmsgs
    rw [onMeshLoaded] at hmsgs
    by_cases h : mesh.id ∈ backendMeshIds wmm mrefs
    · rw [if_neg (not_not_intro h)] at hmsgs
      rw [← Option.some.inj hmsgs]
      simp
    · rw [if_pos h] at hmsgs
      cases hsnap : snapLayers uuid mesh.layers 0 with
      | none =>
          rw [hsnap] at hmsgs
          exact absurd hmsgs (by simp)
      | some ls =>
          rw [hsnap] at hmsgs
          have hmsgs2 : some [OutMsg.addMesh (meshSnap nvMeshes mesh ls),
              OutMsg.meshLoaded mesh.id] = some msgs := hmsgs
          rw [← Option.some.inj hmsgs2]
          simp

/-- C7: the teardown returned by render only detaches the canvas
container — the renderer cache, the attached model listeners and the
Disposer registrations are untouched; only the teardown returned by
initialize runs the full disposer and deletes the cached renderer; and
re-running render while the canvas has a parent node just moves the
container: the state is unchanged, no renderer is constructed and no
volumes or meshes are loaded.  render always hands back the detach-only
teardown, initialize always hands back the full one. -/
theorem C7_lifecycle_cleanups (mid : String) (st : WState) (tok : Nat)
    (hm : omapGet st.nvMap mid = some tok)
    (ht : tok ∈ st.attached) :
    renderWidget mid st =
      some (st, Cleanup.renderCleanup tok, [WEv.moveContainer tok]) ∧
    (∀ st0 : WState,
      (runCleanup (Cleanup.renderCleanup tok) st0).1.nvMap = st0.nvMap ∧
      (runCleanup (Cleanup.renderCleanup tok) st0).1.listeners =
        st0.listeners ∧
      (runCleanup (Cleanup.renderCleanup tok) st0).1.attached =
        st0.attached.erase tok ∧
      (runCleanup (Cleanup.renderCleanup tok) st0).2 =
        [WEv.removeContainer tok]) ∧
    (∀ st0 : WState,
      (runCleanup (Cleanup.initCleanup mid) st0).1.nvMap =
        omapDel st0.nvMap mid ∧
      (runCleanup (Cleanup.initCleanup mid) st0).2 =
        [WEv.disposeAll, WEv.deleteCache mid]) ∧
    (∀ st0 : WState,
      (initializeWidget mid st0).2.1 = Cleanup.initCleanup mid) ∧
    (∀ (st0 : WState) (r : WState × Cleanup × List WEv),
      renderWidget mid st0 = some r →
      ∃ t, r.2.1 = Cleanup.renderCleanup t) := by
  refine ⟨?_, ?_, ?_, ?_, ?_⟩
  · simp only [renderWidget, hm]
    rw [if_pos ht]
  · intro st0
    exact ⟨rfl, rfl, rfl, rfl⟩
  · intro st0
    exact ⟨rfl, rfl⟩
  · intro st0
    cases h0 : omapGet st0.nvMap mid <;> simp [initializeWidget, h0]
  · intro st0 r hr
    cases h0 : omapGet st0.nvMap mid with
    | none =>
        rw [renderWidget, h0] at hr
        exact absurd hr (by simp)
    | some t =>
        simp only [renderWidget, h0] at hr
        by_cases hat : t ∈ st0.attached
        · rw [if_pos hat] at hr
          rw [← Option.some.inj hr]
          exact ⟨t, rfl⟩
        · rw [if_neg hat] at hr
          rw [← Option.some.inj hr]
          exact ⟨t, rfl⟩

/-- C8: every inbound custom message of one of the five recognised types
dispatches exactly the corresponding renderer mutator call; a message of
any other type produces no renderer call and no error. -/
theorem C8_custom_message_dispatch (ty : String) (data : JVal) :
    (ty = "save_scene" →
      handleCustomMsg ty data = [NvCall.saveScene data]) ∧
    (ty = "add_colormap" →
      handleCustomMsg ty data =
        [NvCall.addColormap (jmem data "name") (jmem data "cmap")]) ∧
    (ty = "set_gamma" →
      handleCustomMsg ty data = [NvCall.setGamma data]) ∧
    (ty = "set_clip_plane" →
      handleCustomMsg ty data = [NvCall.setClipPlane data]) ∧
    (ty = "set_mesh_shader" →
      handleCustomMsg ty data =
        [NvCall.setMeshShader (jmem data "mesh_id")
          (jmem data "shader")]) ∧
    (ty ∉ ["save_scene", "add_colormap", "set_gamma", "set_clip_plane",
        "set_mesh_shader"] →
      handleCustomMsg ty data = []) := by
  refine ⟨?_, ?_, ?_, ?_, ?_, ?_⟩ <;> intro h
  · subst h
    rfl
  · subst h
    rfl
  · subst h
    rfl
  · subst h
    rfl
  · subst h
    rfl
  · simp only [List.mem_cons, List.not_mem_nil, or_false, not_or] at h
    obtain ⟨h1, h2, h3, h4, h5⟩ := h
    rw [handleCustomMsg, if_neg h1, if_neg h2, if_neg h3, if_neg h4,
      if_neg h5]

/-- C10: a collection-change event runs the reconciliation pass exactly
when the renderer has a canvas; without one it leaves the state untouched
and queues nothing. -/
theorem C10_collection_change_guard (hasCanvas : Bool) (env : Env)
    (st : RState) :
    (hasCanvas = false →
      ∀ pass : RState → Option (RState × List Ev),
        onCollectionChange hasCanvas pass st = some (st, [])) ∧
    (hasCanvas = true →
      onCollectionChange hasCanvas (render_meshes env) st =
        render_meshes env st) := by
  refine ⟨?_, ?_⟩
  · intro h pass
    rw [onCollectionChange,
      if_neg (by rw [h]; exact Bool.false_ne_true)]
  · intro h
    rw [onCollectionChange, if_pos h]

/-- Closed instantiation of the C6 bridge messages: a new volume
triggers the add_volume snapshot, a known mesh only the mesh_loaded
notification. -/
theorem C6_witness :
    "V" ∉ backendVolumeIds [] [] ∧
    onImageLoaded [] [] [] volW =
      [OutMsg.addVolume (volumeSnap [] volW), OutMsg.imageLoaded "V"] ∧
    (volumeSnap [] volW).path = preloaded ∧
    "X" ∈ backendMeshIds [("m1", mP)] ["IPY_MODEL_m1"] ∧
    onMeshLoaded [("m1", mP)] ["IPY_MODEL_m1"] [] uuidW meshX =
      some [OutMsg.meshLoaded "X"] := by
  have h := C6_loaded_entity_bridge [] [("m1", mP)] [] ["IPY_MODEL_m1"]
    [] [] uuidW volW meshX
  have h1 := h.1 (by decide)
  have h5 := h.2.2.2.2.1 (by decide)
  exact ⟨by decide, h1.1, h1.2, by decide, h5⟩

/-- Closed instantiation of the C7 lifecycle properties on the fixture
state with one cached, attached renderer. -/
theorem C7_witness :
    omapGet stL.nvMap "w1" = some 0 ∧ 0 ∈ stL.attached ∧
    renderWidget "w1" stL =
      some (stL, Cleanup.renderCleanup 0, [WEv.moveContainer 0]) ∧
    (runCleanup (Cleanup.renderCleanup 0) stL).1.nvMap = stL.nvMap ∧
    (runCleanup (Cleanup.renderCleanup 0) stL).1.listeners =
      stL.listeners ∧
    (runCleanup (Cleanup.initCleanup "w1") stL).1.nvMap =
      omapDel stL.nvMap "w1" ∧
    (runCleanup (Cleanup.initCleanup "w1") stL).2 =
      [WEv.disposeAll, WEv.deleteCache "w1"] := by
  have h := C7_lifecycle_cleanups "w1" stL 0 rfl (by decide)
  exact ⟨rfl, by decide, h.1, (h.2.1 stL).1, (h.2.1 stL).2.1,
    (h.2.2.1 stL).1, (h.2.2.1 stL).2⟩

/-- Closed instantiation of the C8 dispatch: a recognised type maps to
its renderer call, an unrecognised one to no call. -/
theorem C8_witness :
    handleCustomMsg "set_gamma" (JVal.num 2) =
      [NvCall.setGamma (JVal.num 2)] ∧
    "bogus_event" ∉ ["save_scene", "add_colormap", "set_gamma",
      "set_clip_plane", "set_mesh_shader"] ∧
    handleCustomMsg "bogus_event" (JVal.num 2) = [] := by
  have h := C8_custom_message_dispatch "set_gamma" (JVal.num 2)
  have h2 := C8_custom_message_dispatch "bogus_event" (JVal.num 2)
  exact ⟨h.2.2.1 rfl, by decide, h2.2.2.2.2.2 (by decide)⟩

/-- Closed instantiation of the C10 guard on the fixture state. -/
theorem C10_witness :
    onCollectionChange false (render_meshes envW) stW = some (stW, []) ∧
    onCollectionChange true (render_meshes envW) stW =
      render_meshes envW stW := by
  have h := C10_collection_change_guard false envW stW
  have h2 := C10_collection_change_guard true envW stW
  exact ⟨h.1 rfl (render_meshes envW), h2.2 rfl⟩

end Ipyniivue
